import Mathlib

/-!
Verification of the file I/O utility module `src/cnnClassifier/utils/common.py`
of the Chicken_Disease_Classification repository.

The module is embedded shallowly: the filesystem is an association list from
paths to contents (text contents for the text-mode functions, byte contents
for the binary-mode functions), and each Python function becomes a pure Lean
function over that state.  Exceptions become an explicit error type.  Library
primitives the module delegates to (`yaml.safe_load`, `box.ConfigBox`,
`json.dump` / `json.load`, `base64.b64encode` / `base64.b64decode`,
`os.makedirs`, Python `round`) are modelled from the semantics of those
libraries; floating-point values inside JSON documents and OS-level failure
modes (permissions, races) are outside the embedding.
-/

/-- Python exceptions that the functions of the module can raise.
`boxValueError` is python-box's `BoxValueError` (a `ValueError` subclass that
`read_yaml` catches separately); `valueError` is a plain `ValueError`;
`yamlError` stands for `yaml.YAMLError` raised by the YAML parser on
malformed input; `binasciiError` is `binascii.Error` raised by base64
decoding; `jsonDecodeError` is `json.JSONDecodeError`. -/
inductive PyError where
  | fileNotFoundError
  | valueError (msg : String)
  | boxValueError (msg : String)
  | typeError (msg : String)
  | yamlError
  | binasciiError (msg : String)
  | jsonDecodeError
deriving DecidableEq, Repr

/-- Read a file from an association-list filesystem (first binding wins,
mirroring a map from paths to contents).  `none` models the file not
existing, in which case Python's `open` raises `FileNotFoundError`. -/
def fsRead {α : Type} (fs : List (String × α)) (p : String) : Option α :=
  (fs.find? (fun e => e.1 == p)).map (fun e => e.2)

/-- Write a file: the new contents replace any previous binding for the path
entirely, which is the semantics of Python's `open(path, "w")` /
`open(path, "wb")` truncate-and-write modes. -/
def fsWrite {α : Type} (fs : List (String × α)) (p : String) (v : α) :
    List (String × α) :=
  (p, v) :: fs.filter (fun e => e.1 != p)

theorem fsRead_fsWrite_same {α : Type} (fs : List (String × α)) (p : String) (v : α) :
    fsRead (fsWrite fs p v) p = some v := by
  simp [fsRead, fsWrite]

theorem find?_filter_of_ne {α : Type} (fs : List (String × α)) (p q : String) (h : q ≠ p) :
    List.find? (fun e => e.1 == q) (fs.filter (fun e => e.1 != p))
      = List.find? (fun e => e.1 == q) fs := by
  induction fs with
  | nil => rfl
  | cons e rest ih =>
    by_cases he : e.1 = p
    · have h1 : (e.1 != p) = false := by simp [he]
      have h2 : (e.1 == q) = false := by
        simp only [beq_eq_false_iff_ne, ne_eq, he]
        exact fun hc => h hc.symm
      rw [List.filter_cons, h1]
      simp only [Bool.false_eq_true, if_false]
      rw [List.find?_cons]
      simp only [h2]
      exact ih
    · have h1 : (e.1 != p) = true := by simp [he]
      rw [List.filter_cons, h1]
      simp only [if_true]
      rw [List.find?_cons, List.find?_cons]
      by_cases heq : e.1 = q
      · simp only [show (e.1 == q) = true by simp [heq]]
      · simp only [show (e.1 == q) = false by simp [heq]]
        exact ih

theorem fsRead_fsWrite_other {α : Type} (fs : List (String × α)) (p q : String) (v : α)
    (h : q ≠ p) : fsRead (fsWrite fs p v) q = fsRead fs q := by
  have hpq : (p == q) = false := by
    simp only [beq_eq_false_iff_ne, ne_eq]
    exact fun hc => h hc.symm
  simp [fsRead, fsWrite, List.find?_cons, hpq, find?_filter_of_ne fs p q h]

/-! ## YAML values and `read_yaml`

`read_yaml(path_to_yaml)` opens the file, runs `yaml.safe_load` on it, and
wraps the result in `box.ConfigBox`.  A `BoxValueError` from the wrapping is
translated to `ValueError("YAML file is empty.")`; every other exception
(including `FileNotFoundError` from `open` and `yaml.YAMLError` from the
parser) is re-raised unchanged by the `except Exception as e: raise e` arm. -/

/-- Values produced by `yaml.safe_load`: null, booleans, integers, strings,
sequences and (string-keyed) mappings. -/
inductive YamlValue where
  | nullV
  | boolV (b : Bool)
  | intV (n : Int)
  | strV (s : String)
  | listV (items : List YamlValue)
  | dictV (entries : List (String × YamlValue))

/-- Unpacking of one element of an iterable by `for k, v in ...`, as Python
does inside `Box.__init__`.  A two-element sequence whose head is a string
unpacks to a key/value pair; a two-character string unpacks to its two
characters; a two-entry mapping unpacks to its two keys; a scalar is not
iterable and raises `TypeError`; any other length raises `ValueError`. -/
def unpackPair : YamlValue → Except PyError (String × YamlValue)
  | .listV [.strV k, v] => .ok (k, v)
  | .listV [_, _] => .error (.typeError "attribute name must be string")
  | .listV items =>
      if items.length < 2 then
        .error (.valueError "not enough values to unpack")
      else
        .error (.valueError "too many values to unpack")
  | .strV s =>
      if h : s.length = 2 then
        .ok (String.mk [s.data.head (by
          intro hnil
          rw [show s.length = s.data.length from rfl, hnil] at h
          simp at h)], .strV (String.mk s.data.tail))
      else if s.length < 2 then
        .error (.valueError "not enough values to unpack")
      else
        .error (.valueError "too many values to unpack")
  | .dictV [e1, e2] => .ok (e1.1, .strV e2.1)
  | .dictV entries =>
      if entries.length < 2 then
        .error (.valueError "not enough values to unpack")
      else
        .error (.valueError "too many values to unpack")
  | .nullV => .error (.typeError "cannot unpack non-iterable NoneType object")
  | .boolV _ => .error (.typeError "cannot unpack non-iterable bool object")
  | .intV _ => .error (.typeError "cannot unpack non-iterable int object")

/-- Unpack every element of a list in order, stopping at the first failing
element, as the `for k, v in args[0]` loop in `Box.__init__` does. -/
def unpackAll : List YamlValue → Except PyError (List (String × YamlValue))
  | [] => .ok []
  | x :: xs =>
    match unpackPair x with
    | .error e => .error e
    | .ok p =>
      match unpackAll xs with
      | .error e => .error e
      | .ok ps => .ok (p :: ps)

/-- Modelled from python-box `Box.__init__` applied to one positional
argument: a string raises `BoxValueError("Cannot extrapolate Box from
string")`; a mapping is taken as-is; any other iterable is consumed as a
sequence of key/value pairs; everything else (including `None`, the result
of `yaml.safe_load` on an empty file) raises `BoxValueError("First argument
must be mapping or iterable")`. -/
def boxInit : YamlValue → Except PyError (List (String × YamlValue))
  | .strV _ => .error (.boxValueError "Cannot extrapolate Box from string")
  | .dictV entries => .ok entries
  | .listV items => unpackAll items
  | .nullV => .error (.boxValueError "First argument must be mapping or iterable")
  | .boolV _ => .error (.boxValueError "First argument must be mapping or iterable")
  | .intV _ => .error (.boxValueError "First argument must be mapping or iterable")

/-- Whether a file's text is empty or consists only of whitespace, in which
case a YAML stream contains no document. -/
def isBlank (text : String) : Bool :=
  text.data.all (fun c => c.isWhitespace)

/-- `yaml.safe_load` on the text of a file.  The parser itself is an
abstract parameter (`parse`); the wrapper fixes the one behaviour every
YAML parser guarantees and that `read_yaml`'s empty-file branch relies on:
an empty (or whitespace-only) stream loads as `None`. -/
def safe_load (parse : String → Except PyError YamlValue) (text : String) :
    Except PyError YamlValue :=
  if isBlank text then .ok .nullV else parse text

/-- Shallow embedding of `read_yaml` from `common.py`: open the file (a
missing path raises `FileNotFoundError`, re-raised unchanged), run
`yaml.safe_load` (parser errors re-raised unchanged), wrap the result in
`ConfigBox`; a `BoxValueError` from the wrapping is replaced by
`ValueError("YAML file is empty.")` and every other exception propagates. -/
def read_yaml (parse : String → Except PyError YamlValue)
    (fs : List (String × String)) (path : String) :
    Except PyError (List (String × YamlValue)) :=
  match fsRead fs path with
  | none => .error .fileNotFoundError
  | some text =>
    match safe_load parse text with
    | .error e => .error e
    | .ok v =>
      match boxInit v with
      | .error (.boxValueError _) => .error (.valueError "YAML file is empty.")
      | .error e => .error e
      | .ok entries => .ok entries

/-- The spec's abstract `FormatError` for `read_structured_config`, mapped
onto the concrete exceptions `read_yaml` raises for an empty or malformed
file: the `ValueError` carrying the empty-file message, or an error from
the YAML parser (`yaml.YAMLError`). -/
def isFormatError : PyError → Bool
  | .valueError msg => msg == "YAML file is empty."
  | .yamlError => true
  | _ => false

/-- Scalar YAML values: null, booleans, integers and strings.  `Box.__init__`
rejects all of them with a `BoxValueError` (strings explicitly, the rest as
neither mapping nor iterable). -/
def isYamlScalar : YamlValue → Bool
  | .nullV => true
  | .boolV _ => true
  | .intV _ => true
  | .strV _ => true
  | .listV _ => false
  | .dictV _ => false

/-- `yaml.safe_load` restricted to the single document `"- 1"`, a YAML
sequence containing the integer 1 (any other input is treated as a parse
error); a concrete instantiation of the abstract parser parameter. -/
def yamlSeqParse : String → Except PyError YamlValue :=
  fun s => if s = "- 1" then .ok (.listV [.intV 1]) else .error .yamlError

/-- `yaml.safe_load` restricted to the single document `"5"`, the bare YAML
integer scalar 5; a concrete instantiation of the abstract parser
parameter. -/
def yamlScalarParse : String → Except PyError YamlValue :=
  fun s => if s = "5" then .ok (.intV 5) else .error .yamlError

/-- `yaml.safe_load` restricted to the single document `"- a: 1"`, a YAML
sequence whose one element is the single-entry mapping from `"a"` to 1; a
concrete instantiation of the abstract parser parameter. -/
def yamlMapListParse : String → Except PyError YamlValue :=
  fun s =>
    if s = "- a: 1" then .ok (.listV [.dictV [("a", .intV 1)]])
    else .error .yamlError

/-- C1: `read_yaml` raises `FileNotFoundError` when the path does not exist,
the `ValueError` carrying the empty-file message (a `FormatError` in the
spec's classification) when the file is empty, and re-raises the YAML
parser's error (also a `FormatError`) when the file is malformed. -/
theorem read_yaml_error_contract
    (parse : String → Except PyError YamlValue)
    (fs : List (String × String)) (path : String) :
    (fsRead fs path = none → read_yaml parse fs path = .error .fileNotFoundError)
    ∧ (∀ text, fsRead fs path = some text → isBlank text = true →
        read_yaml parse fs path = .error (.valueError "YAML file is empty.")
          ∧ isFormatError (.valueError "YAML file is empty.") = true)
    ∧ (∀ text, fsRead fs path = some text → isBlank text = false →
        parse text = .error .yamlError →
        read_yaml parse fs path = .error .yamlError
          ∧ isFormatError .yamlError = true) := by
  refine ⟨?_, ?_, ?_⟩
  · intro h
    simp [read_yaml, h]
  · intro text ht htrim
    exact ⟨by simp [read_yaml, ht, safe_load, htrim, boxInit], rfl⟩
  · intro text ht htrim hp
    exact ⟨by simp [read_yaml, ht, safe_load, htrim, hp], rfl⟩

theorem read_yaml_error_contract_witness :
    read_yaml yamlSeqParse [("empty.yaml", "")] "missing.yaml"
      = .error .fileNotFoundError
    ∧ read_yaml yamlSeqParse [("empty.yaml", "")] "empty.yaml"
      = .error (.valueError "YAML file is empty.")
    ∧ read_yaml yamlSeqParse [("bad.yaml", "a: [")] "bad.yaml"
      = .error .yamlError := by
  refine ⟨?_, ?_, ?_⟩
  · exact (read_yaml_error_contract yamlSeqParse [("empty.yaml", "")] "missing.yaml").1 rfl
  · exact ((read_yaml_error_contract yamlSeqParse [("empty.yaml", "")] "empty.yaml").2.1
      "" rfl rfl).1
  · exact ((read_yaml_error_contract yamlSeqParse [("bad.yaml", "a: [")] "bad.yaml").2.2
      "a: [" rfl rfl rfl).1

/-- C10 counterexample: a file whose content parses as the YAML list `[1]`
(a non-mapping top-level value) makes `read_yaml` raise a propagated
`TypeError` from tuple unpacking inside `ConfigBox`, not the
`ValueError("YAML file is empty.")` the claim predicts. -/
theorem read_yaml_list_not_empty_message :
    read_yaml yamlSeqParse [("list.yaml", "- 1")] "list.yaml"
      = .error (.typeError "cannot unpack non-iterable int object")
    ∧ read_yaml yamlSeqParse [("list.yaml", "- 1")] "list.yaml"
      ≠ .error (.valueError "YAML file is empty.") := by
  have h1 : read_yaml yamlSeqParse [("list.yaml", "- 1")] "list.yaml"
      = .error (.typeError "cannot unpack non-iterable int object") := rfl
  refine ⟨h1, ?_⟩
  rw [h1]
  intro hc
  have h2 := Except.error.inj hc
  simp at h2

/-- C10 (amended): when the top-level YAML value is a bare scalar (null,
boolean, integer or string), `read_yaml` does raise
`ValueError("YAML file is empty.")`; but when it is a list the empty-file
message is not produced: the error raised while unpacking the list's first
element inside `ConfigBox.__init__` propagates unchanged — a `TypeError`
when that element is a non-iterable scalar such as an integer, and a
`ValueError("not enough values to unpack")` when it is a single-entry
mapping. -/
theorem read_yaml_nonmapping_amended
    (parse : String → Except PyError YamlValue)
    (fs : List (String × String)) (path : String) (text : String) (v : YamlValue)
    (hread : fsRead fs path = some text) (htrim : isBlank text = false)
    (hparse : parse text = .ok v) :
    (isYamlScalar v = true →
      read_yaml parse fs path = .error (.valueError "YAML file is empty."))
    ∧ (∀ n rest, v = .listV (.intV n :: rest) →
      read_yaml parse fs path
        = .error (.typeError "cannot unpack non-iterable int object"))
    ∧ (∀ k w rest, v = .listV (.dictV [(k, w)] :: rest) →
      read_yaml parse fs path
        = .error (.valueError "not enough values to unpack")) := by
  refine ⟨?_, ?_, ?_⟩
  · intro hs
    cases v with
    | nullV => simp [read_yaml, hread, safe_load, htrim, hparse, boxInit]
    | boolV b => simp [read_yaml, hread, safe_load, htrim, hparse, boxInit]
    | intV n => simp [read_yaml, hread, safe_load, htrim, hparse, boxInit]
    | strV s => simp [read_yaml, hread, safe_load, htrim, hparse, boxInit]
    | listV items => simp [isYamlScalar] at hs
    | dictV entries => simp [isYamlScalar] at hs
  · rintro n rest rfl
    simp [read_yaml, hread, safe_load, htrim, hparse, boxInit, unpackAll, unpackPair]
  · rintro k w rest rfl
    simp [read_yaml, hread, safe_load, htrim, hparse, boxInit, unpackAll, unpackPair]

theorem read_yaml_nonmapping_amended_witness :
    read_yaml yamlScalarParse [("scalar.yaml", "5")] "scalar.yaml"
      = .error (.valueError "YAML file is empty.")
    ∧ read_yaml yamlSeqParse [("list.yaml", "- 1")] "list.yaml"
      = .error (.typeError "cannot unpack non-iterable int object")
    ∧ read_yaml yamlMapListParse [("maps.yaml", "- a: 1")] "maps.yaml"
      = .error (.valueError "not enough values to unpack") := by
  refine ⟨?_, ?_, ?_⟩
  · exact (read_yaml_nonmapping_amended yamlScalarParse [("scalar.yaml", "5")]
      "scalar.yaml" "5" (.intV 5) rfl rfl rfl).1 rfl
  · exact (read_yaml_nonmapping_amended yamlSeqParse [("list.yaml", "- 1")]
      "list.yaml" "- 1" (.listV [.intV 1]) rfl rfl rfl).2.1 1 [] rfl
  · exact (read_yaml_nonmapping_amended yamlMapListParse [("maps.yaml", "- a: 1")]
      "maps.yaml" "- a: 1" (.listV [.dictV [("a", .intV 1)]]) rfl rfl rfl).2.2
      "a" (.intV 1) [] rfl

/-! ## Base64 and the image helpers

`decodeImage(imgstring, fileName)` runs `base64.b64decode` on its argument
and then writes the decoded bytes to the file in `"wb"` mode; the decode
happens before the file is opened, so a decoding error leaves the
filesystem untouched.  `encodeImageIntoBase64(croppedImagePath)` reads the
file in binary mode and returns `base64.b64encode` of its contents.
Bytes are modelled as natural numbers below 256. -/

/-- The base64 alphabet: index `n < 64` to its character, modelled from the
standard table used by `binascii.b2a_base64`. -/
def b2aChar (n : Nat) : Char :=
  if n < 26 then Char.ofNat (65 + n)
  else if n < 52 then Char.ofNat (97 + (n - 26))
  else if n < 62 then Char.ofNat (48 + (n - 52))
  else if n = 62 then '+'
  else '/'

/-- The inverse table `table_a2b_base64` of CPython's `binascii`: alphabet
characters map to their 6-bit value, everything else (including `=`) to
`none`. -/
def a2bVal (c : Char) : Option Nat :=
  if 65 ≤ c.toNat ∧ c.toNat ≤ 90 then some (c.toNat - 65)
  else if 97 ≤ c.toNat ∧ c.toNat ≤ 122 then some (c.toNat - 97 + 26)
  else if 48 ≤ c.toNat ∧ c.toNat ≤ 57 then some (c.toNat - 48 + 52)
  else if c = '+' then some 62
  else if c = '/' then some 63
  else none

/-- `base64.b64encode`: canonical base64 of a byte string, three bytes to
four characters, with `=` padding on a final group of one or two bytes. -/
def b64encode : List Nat → List Char
  | [] => []
  | [b1] => [b2aChar (b1 / 4), b2aChar (b1 % 4 * 16), '=', '=']
  | [b1, b2] =>
      [b2aChar (b1 / 4), b2aChar (b1 % 4 * 16 + b2 / 16), b2aChar (b2 % 16 * 4), '=']
  | b1 :: b2 :: b3 :: rest =>
      b2aChar (b1 / 4) :: b2aChar (b1 % 4 * 16 + b2 / 16) ::
        b2aChar (b2 % 16 * 4 + b3 / 64) :: b2aChar (b3 % 64) :: b64encode rest

/-- The state machine of CPython's `binascii.a2b_base64` in its default
non-strict mode, modelled from `Modules/binascii.c`: characters outside the
alphabet are discarded; a `=` while at least two characters of the current
group have been seen, bringing the group plus padding to four, ends the
input; a leftover group of one character is an error mentioning the data
character count, any other leftover is `Incorrect padding`.  Arguments:
input characters, position inside the current group (`quad_pos`), pending
bits (`leftchar`), consecutive padding count (`pads`), number of data
characters seen (`count`, used in the error message), accumulated output
bytes in reverse order. -/
def a2bAux : List Char → Nat → Nat → Nat → Nat → List Nat → Except String (List Nat)
  | [], quadPos, _, _, count, acc =>
      if quadPos = 0 then .ok acc.reverse
      else if quadPos = 1 then
        .error ("Invalid base64-encoded string: number of data characters (" ++
          toString count ++ ") cannot be 1 more than a multiple of 4")
      else .error "Incorrect padding"
  | c :: cs, quadPos, leftchar, pads, count, acc =>
      if c = '=' then
        if 2 ≤ quadPos then
          if 4 ≤ quadPos + (pads + 1) then .ok acc.reverse
          else a2bAux cs quadPos leftchar (pads + 1) count acc
        else a2bAux cs quadPos leftchar pads count acc
      else
        match a2bVal c with
        | none => a2bAux cs quadPos leftchar pads count acc
        | some v =>
          match quadPos with
          | 0 => a2bAux cs 1 v 0 (count + 1) acc
          | 1 => a2bAux cs 2 (v % 16) 0 (count + 1) ((leftchar * 4 + v / 16) :: acc)
          | 2 => a2bAux cs 3 (v % 4) 0 (count + 1) ((leftchar * 16 + v / 4) :: acc)
          | _ => a2bAux cs 0 0 0 (count + 1) ((leftchar * 64 + v) :: acc)

/-- `base64.b64decode` on a `str` argument: the string must be pure ASCII
(otherwise a `ValueError` from the implicit `.encode("ascii")`), then
`binascii.a2b_base64` runs in non-strict mode and its errors surface as
`binascii.Error`. -/
def b64decode (s : String) : Except PyError (List Nat) :=
  if s.data.all (fun c => c.toNat < 128) then
    match a2bAux s.data 0 0 0 0 [] with
    | .error msg => .error (.binasciiError msg)
    | .ok bs => .ok bs
  else .error (.valueError "string argument should contain only ASCII characters")

/-- Shallow embedding of `decodeImage` from `common.py`: decode the base64
string, then open the output file in `"wb"` mode and write the decoded
bytes, replacing any previous contents.  A decoding error is raised before
the file is opened, leaving the filesystem unchanged. -/
def decodeImage (imgstring : String) (fileName : String)
    (fs : List (String × List Nat)) :
    Except PyError Unit × List (String × List Nat) :=
  match b64decode imgstring with
  | .error e => (.error e, fs)
  | .ok imgdata => (.ok (), fsWrite fs fileName imgdata)

/-- Shallow embedding of `encodeImageIntoBase64` from `common.py`: open the
file in `"rb"` mode (a missing path raises `FileNotFoundError`), read it in
full and return the base64 encoding of its contents. -/
def encodeImageIntoBase64 (croppedImagePath : String)
    (fs : List (String × List Nat)) : Except PyError String :=
  match fsRead fs croppedImagePath with
  | none => .error .fileNotFoundError
  | some content => .ok (String.mk (b64encode content))

/-- Membership in the base64 alphabet. -/
def isB64Char (c : Char) : Bool := (a2bVal c).isSome

/-- Well-formed base64 text in the sense of the spec: complete four-character
groups of alphabet characters, where the final group may replace its last
one or two characters by `=` padding. -/
def wellFormedB64 : List Char → Bool
  | [] => true
  | c1 :: c2 :: c3 :: c4 :: rest =>
      isB64Char c1 && isB64Char c2 &&
        ((isB64Char c3 && isB64Char c4 && wellFormedB64 rest) ||
          (rest.isEmpty &&
            ((c3 == '=' && c4 == '=') || (isB64Char c3 && c4 == '='))))
  | _ => false

theorem char_toNat_ofNat (n : Nat) (h : n < 55296) : (Char.ofNat n).toNat = n := by
  have hv : n.isValidChar := Or.inl h
  rw [Char.ofNat, dif_pos hv]
  rfl

theorem a2bVal_b2aChar (n : Nat) (h : n < 64) : a2bVal (b2aChar n) = some n := by
  unfold b2aChar a2bVal
  by_cases h1 : n < 26
  · rw [if_pos h1]
    rw [char_toNat_ofNat (65 + n) (by omega)]
    rw [if_pos ⟨by omega, by omega⟩]
    congr 1
    omega
  · rw [if_neg h1]
    by_cases h2 : n < 52
    · rw [if_pos h2]
      rw [char_toNat_ofNat (97 + (n - 26)) (by omega)]
      rw [if_neg (by omega), if_pos ⟨by omega, by omega⟩]
      congr 1
      omega
    · rw [if_neg h2]
      by_cases h3 : n < 62
      · rw [if_pos h3]
        rw [char_toNat_ofNat (48 + (n - 52)) (by omega)]
        rw [if_neg (by omega), if_neg (by omega), if_pos ⟨by omega, by omega⟩]
        congr 1
        omega
      · by_cases h4 : n = 62
        · rw [if_neg h3, if_pos h4, h4]
          decide
        · rw [if_neg h3, if_neg h4]
          have h5 : n = 63 := by omega
          rw [h5]
          decide

theorem a2bVal_pad : a2bVal '=' = none := by decide

theorem ne_pad_of_a2bVal (c : Char) (v : Nat) (hv : a2bVal c = some v) : ¬ (c = '=') := by
  intro hc
  rw [hc, a2bVal_pad] at hv
  exact Option.noConfusion hv

theorem a2bAux_data0 (c : Char) (cs : List Char) (v : Nat) (hv : a2bVal c = some v)
    (lc pads count : Nat) (acc : List Nat) :
    a2bAux (c :: cs) 0 lc pads count acc = a2bAux cs 1 v 0 (count + 1) acc := by
  rw [a2bAux, if_neg (ne_pad_of_a2bVal c v hv), hv]

theorem a2bAux_data1 (c : Char) (cs : List Char) (v : Nat) (hv : a2bVal c = some v)
    (lc pads count : Nat) (acc : List Nat) :
    a2bAux (c :: cs) 1 lc pads count acc
      = a2bAux cs 2 (v % 16) 0 (count + 1) ((lc * 4 + v / 16) :: acc) := by
  rw [a2bAux, if_neg (ne_pad_of_a2bVal c v hv), hv]

theorem a2bAux_data2 (c : Char) (cs : List Char) (v : Nat) (hv : a2bVal c = some v)
    (lc pads count : Nat) (acc : List Nat) :
    a2bAux (c :: cs) 2 lc pads count acc
      = a2bAux cs 3 (v % 4) 0 (count + 1) ((lc * 16 + v / 4) :: acc) := by
  rw [a2bAux, if_neg (ne_pad_of_a2bVal c v hv), hv]

theorem a2bAux_data3 (c : Char) (cs : List Char) (v : Nat) (hv : a2bVal c = some v)
    (lc pads count : Nat) (acc : List Nat) :
    a2bAux (c :: cs) 3 lc pads count acc
      = a2bAux cs 0 0 0 (count + 1) ((lc * 64 + v) :: acc) := by
  rw [a2bAux, if_neg (ne_pad_of_a2bVal c v hv), hv]
set_option maxHeartbeats 1000000 in
theorem a2bAux_encode (b : List Nat) (hb : ∀ x ∈ b, x < 256) :
    ∀ lc pads count acc, a2bAux (b64encode b) 0 lc pads count acc
      = .ok (acc.reverse ++ b) := by
  induction b using b64encode.induct with
  | case1 => intro lc pads count acc; simp [b64encode, a2bAux]
  | case2 b1 =>
    intro lc pads count acc
    have h1 : b1 < 256 := hb b1 (by simp)
    rw [b64encode]
    rw [a2bAux_data0 _ _ _ (a2bVal_b2aChar (b1 / 4) (by omega)) lc pads count acc]
    rw [a2bAux_data1 _ _ _ (a2bVal_b2aChar (b1 % 4 * 16) (by omega))]
    have e1 : b1 / 4 * 4 + b1 % 4 * 16 / 16 = b1 := by omega
    have e2 : b1 % 4 * 16 % 16 = 0 := by omega
    rw [e1, e2]
    rw [a2bAux]
    rw [if_pos rfl, if_pos (by omega : 2 ≤ 2), if_neg (by omega : ¬ 4 ≤ 2 + (0 + 1))]
    rw [a2bAux]
    rw [if_pos rfl, if_pos (by omega : 2 ≤ 2), if_pos (by omega : 4 ≤ 2 + (1 + 1))]
    simp
  | case3 b1 b2 =>
    intro lc pads count acc
    have h1 : b1 < 256 := hb b1 (by simp)
    have h2 : b2 < 256 := hb b2 (by simp)
    rw [b64encode]
    rw [a2bAux_data0 _ _ _ (a2bVal_b2aChar (b1 / 4) (by omega))]
    rw [a2bAux_data1 _ _ _ (a2bVal_b2aChar (b1 % 4 * 16 + b2 / 16) (by omega))]
    have e1 : b1 / 4 * 4 + (b1 % 4 * 16 + b2 / 16) / 16 = b1 := by omega
    have e2 : (b1 % 4 * 16 + b2 / 16) % 16 = b2 / 16 := by omega
    rw [e1, e2]
    rw [a2bAux_data2 _ _ _ (a2bVal_b2aChar (b2 % 16 * 4) (by omega))]
    have e3 : b2 / 16 * 16 + b2 % 16 * 4 / 4 = b2 := by omega
    have e4 : b2 % 16 * 4 % 4 = 0 := by omega
    rw [e3, e4]
    rw [a2bAux]
    rw [if_pos rfl, if_pos (by omega : 2 ≤ 3), if_pos (by omega : 4 ≤ 3 + (0 + 1))]
    simp
  | case4 b1 b2 b3 rest ih =>
    intro lc pads count acc
    have h1 : b1 < 256 := hb b1 (by simp)
    have h2 : b2 < 256 := hb b2 (by simp)
    have h3 : b3 < 256 := hb b3 (by simp)
    have hrest : ∀ x ∈ rest, x < 256 := fun x hx => hb x (by simp [hx])
    rw [b64encode]
    rw [a2bAux_data0 _ _ _ (a2bVal_b2aChar (b1 / 4) (by omega))]
    rw [a2bAux_data1 _ _ _ (a2bVal_b2aChar (b1 % 4 * 16 + b2 / 16) (by omega))]
    have e1 : b1 / 4 * 4 + (b1 % 4 * 16 + b2 / 16) / 16 = b1 := by omega
    have e2 : (b1 % 4 * 16 + b2 / 16) % 16 = b2 / 16 := by omega
    rw [e1, e2]
    rw [a2bAux_data2 _ _ _ (a2bVal_b2aChar (b2 % 16 * 4 + b3 / 64) (by omega))]
    have e3 : b2 / 16 * 16 + (b2 % 16 * 4 + b3 / 64) / 4 = b2 := by omega
    have e4 : (b2 % 16 * 4 + b3 / 64) % 4 = b3 / 64 := by omega
    rw [e3, e4]
    rw [a2bAux_data3 _ _ _ (a2bVal_b2aChar (b3 % 64) (by omega))]
    have e5 : b3 / 64 * 64 + b3 % 64 = b3 := by omega
    rw [e5]
    rw [ih hrest]
    simp

theorem b2aChar_ascii (n : Nat) (h : n < 64) : (b2aChar n).toNat < 128 := by
  unfold b2aChar
  by_cases h1 : n < 26
  · rw [if_pos h1, char_toNat_ofNat (65 + n) (by omega)]
    omega
  · rw [if_neg h1]
    by_cases h2 : n < 52
    · rw [if_pos h2, char_toNat_ofNat (97 + (n - 26)) (by omega)]
      omega
    · rw [if_neg h2]
      by_cases h3 : n < 62
      · rw [if_pos h3, char_toNat_ofNat (48 + (n - 52)) (by omega)]
        omega
      · by_cases h4 : n = 62
        · rw [if_neg h3, if_pos h4]
          decide
        · rw [if_neg h3, if_neg h4]
          decide

theorem b64encode_ascii (b : List Nat) (hb : ∀ x ∈ b, x < 256) :
    (b64encode b).all (fun c => c.toNat < 128) = true := by
  induction b using b64encode.induct with
  | case1 => rfl
  | case2 b1 =>
    have h1 : b1 < 256 := hb b1 (by simp)
    simp [b64encode, b2aChar_ascii (b1 / 4) (by omega),
      b2aChar_ascii (b1 % 4 * 16) (by omega)]
  | case3 b1 b2 =>
    have h1 : b1 < 256 := hb b1 (by simp)
    have h2 : b2 < 256 := hb b2 (by simp)
    simp [b64encode, b2aChar_ascii (b1 / 4) (by omega),
      b2aChar_ascii (b1 % 4 * 16 + b2 / 16) (by omega),
      b2aChar_ascii (b2 % 16 * 4) (by omega)]
  | case4 b1 b2 b3 rest ih =>
    have h1 : b1 < 256 := hb b1 (by simp)
    have h2 : b2 < 256 := hb b2 (by simp)
    have h3 : b3 < 256 := hb b3 (by simp)
    have hrest : ∀ x ∈ rest, x < 256 := fun x hx => hb x (by simp [hx])
    simp [b64encode, b2aChar_ascii (b1 / 4) (by omega),
      b2aChar_ascii (b1 % 4 * 16 + b2 / 16) (by omega),
      b2aChar_ascii (b2 % 16 * 4 + b3 / 64) (by omega),
      b2aChar_ascii (b3 % 64) (by omega), ih hrest]

/-- Decoding inverts encoding: `b64decode` of `b64encode` of any byte string
returns exactly those bytes. -/
theorem b64decode_encode (b : List Nat) (hb : ∀ x ∈ b, x < 256) :
    b64decode (String.mk (b64encode b)) = .ok b := by
  unfold b64decode
  rw [show (String.mk (b64encode b)).data = b64encode b from rfl]
  rw [if_pos (b64encode_ascii b hb)]
  rw [a2bAux_encode b hb 0 0 0 []]
  simp

theorem ascii_of_a2bVal (c : Char) (v : Nat) (hv : a2bVal c = some v) :
    c.toNat < 128 := by
  unfold a2bVal at hv
  split_ifs at hv with h1 h2 h3 h4 h5
  · omega
  · omega
  · omega
  · rw [h4]
    decide
  · rw [h5]
    decide

theorem exists_a2bVal_of_isB64Char (c : Char) (h : isB64Char c = true) :
    ∃ v, a2bVal c = some v := by
  rw [isB64Char] at h
  exact Option.isSome_iff_exists.mp h

theorem a2bAux_ok_of_wf_aux :
    ∀ (n : Nat) (l : List Char), l.length ≤ n → wellFormedB64 l = true →
      ∀ lc pads count acc, ∃ bs, a2bAux l 0 lc pads count acc = .ok bs := by
  intro n
  induction n with
  | zero =>
    intro l hl hwf lc pads count acc
    have hnil : l = [] := List.eq_nil_of_length_eq_zero (Nat.le_zero.mp hl)
    subst hnil
    exact ⟨acc.reverse, rfl⟩
  | succ n ih =>
    intro l hl hwf lc pads count acc
    rcases l with _ | ⟨c1, _ | ⟨c2, _ | ⟨c3, _ | ⟨c4, rest⟩⟩⟩⟩
    · exact ⟨acc.reverse, rfl⟩
    · simp [wellFormedB64] at hwf
    · simp [wellFormedB64] at hwf
    · simp [wellFormedB64] at hwf
    · simp only [wellFormedB64, Bool.and_eq_true, Bool.or_eq_true] at hwf
      obtain ⟨⟨h1, h2⟩, hrest⟩ := hwf
      obtain ⟨v1, hv1⟩ := exists_a2bVal_of_isB64Char c1 h1
      obtain ⟨v2, hv2⟩ := exists_a2bVal_of_isB64Char c2 h2
      rw [a2bAux_data0 _ _ _ hv1, a2bAux_data1 _ _ _ hv2]
      rcases hrest with ⟨⟨h3, h4⟩, hwf'⟩ | ⟨hemp, hpad⟩
      · obtain ⟨v3, hv3⟩ := exists_a2bVal_of_isB64Char c3 h3
        obtain ⟨v4, hv4⟩ := exists_a2bVal_of_isB64Char c4 h4
        rw [a2bAux_data2 _ _ _ hv3, a2bAux_data3 _ _ _ hv4]
        have hlen : rest.length ≤ n := by
          simp only [List.length_cons] at hl
          omega
        exact ih rest hlen hwf' _ _ _ _
      · have hnil : rest = [] := List.isEmpty_iff.mp hemp
        subst hnil
        rcases hpad with ⟨hc3, hc4⟩ | ⟨h3, hc4⟩
        · have hc3' : c3 = '=' := by simpa using hc3
          have hc4' : c4 = '=' := by simpa using hc4
          subst hc3' hc4'
          rw [a2bAux, if_pos rfl, if_pos (by omega : 2 ≤ 2),
            if_neg (by omega : ¬ 4 ≤ 2 + (0 + 1))]
          rw [a2bAux, if_pos rfl, if_pos (by omega : 2 ≤ 2),
            if_pos (by omega : 4 ≤ 2 + (1 + 1))]
          exact ⟨_, rfl⟩
        · obtain ⟨v3, hv3⟩ := exists_a2bVal_of_isB64Char c3 h3
          have hc4' : c4 = '=' := by simpa using hc4
          subst hc4'
          rw [a2bAux_data2 _ _ _ hv3]
          rw [a2bAux, if_pos rfl, if_pos (by omega : 2 ≤ 3),
            if_pos (by omega : 4 ≤ 3 + (0 + 1))]
          exact ⟨_, rfl⟩

theorem wellFormedB64_ascii :
    ∀ (n : Nat) (l : List Char), l.length ≤ n → wellFormedB64 l = true →
      l.all (fun c => c.toNat < 128) = true := by
  intro n
  induction n with
  | zero =>
    intro l hl hwf
    have hnil : l = [] := List.eq_nil_of_length_eq_zero (Nat.le_zero.mp hl)
    subst hnil
    rfl
  | succ n ih =>
    intro l hl hwf
    rcases l with _ | ⟨c1, _ | ⟨c2, _ | ⟨c3, _ | ⟨c4, rest⟩⟩⟩⟩
    · rfl
    · simp [wellFormedB64] at hwf
    · simp [wellFormedB64] at hwf
    · simp [wellFormedB64] at hwf
    · simp only [wellFormedB64, Bool.and_eq_true, Bool.or_eq_true] at hwf
      obtain ⟨⟨h1, h2⟩, hrest⟩ := hwf
      obtain ⟨v1, hv1⟩ := exists_a2bVal_of_isB64Char c1 h1
      obtain ⟨v2, hv2⟩ := exists_a2bVal_of_isB64Char c2 h2
      have ha1 := ascii_of_a2bVal c1 v1 hv1
      have ha2 := ascii_of_a2bVal c2 v2 hv2
      rcases hrest with ⟨⟨h3, h4⟩, hwf'⟩ | ⟨hemp, hpad⟩
      · obtain ⟨v3, hv3⟩ := exists_a2bVal_of_isB64Char c3 h3
        obtain ⟨v4, hv4⟩ := exists_a2bVal_of_isB64Char c4 h4
        have hlen : rest.length ≤ n := by
          simp only [List.length_cons] at hl
          omega
        simp [List.all_cons, ha1, ha2, ascii_of_a2bVal c3 v3 hv3,
          ascii_of_a2bVal c4 v4 hv4, ih rest hlen hwf']
      · have hnil : rest = [] := List.isEmpty_iff.mp hemp
        subst hnil
        rcases hpad with ⟨hc3, hc4⟩ | ⟨h3, hc4⟩
        · have hc3' : c3 = '=' := by simpa using hc3
          have hc4' : c4 = '=' := by simpa using hc4
          subst hc3' hc4'
          simp [List.all_cons, ha1, ha2]
        · obtain ⟨v3, hv3⟩ := exists_a2bVal_of_isB64Char c3 h3
          have hc4' : c4 = '=' := by simpa using hc4
          subst hc4'
          simp [List.all_cons, ha1, ha2, ascii_of_a2bVal c3 v3 hv3]

/-- C3: encoding a file's bytes to base64 with `encodeImageIntoBase64` and
decoding the result with `decodeImage` writes exactly the original bytes to
the output file. -/
theorem encode_then_decode_writes_bytes
    (fs fs2 : List (String × List Nat)) (inPath outPath : String) (b : List Nat)
    (hread : fsRead fs inPath = some b) (hb : ∀ x ∈ b, x < 256) :
    encodeImageIntoBase64 inPath fs = .ok (String.mk (b64encode b))
    ∧ decodeImage (String.mk (b64encode b)) outPath fs2
        = (.ok (), fsWrite fs2 outPath b)
    ∧ fsRead (fsWrite fs2 outPath b) outPath = some b := by
  refine ⟨?_, ?_, fsRead_fsWrite_same fs2 outPath b⟩
  · unfold encodeImageIntoBase64
    rw [hread]
  · unfold decodeImage
    rw [b64decode_encode b hb]

theorem encode_then_decode_writes_bytes_witness :
    encodeImageIntoBase64 "in.png" [("in.png", [102, 111, 111])] = .ok "Zm9v"
    ∧ decodeImage "Zm9v" "out.png" [("out.png", [1, 2])]
        = (.ok (), [("out.png", [102, 111, 111])])
    ∧ fsRead [("out.png", [102, 111, 111])] "out.png" = some [102, 111, 111] := by
  have h := encode_then_decode_writes_bytes [("in.png", [102, 111, 111])]
    [("out.png", [1, 2])] "in.png" "out.png" [102, 111, 111] rfl (by decide)
  exact ⟨h.1, h.2.1, h.2.2⟩

/-- C4 counterexample: the string `"####"` is not well-formed base64, yet
`decodeImage` succeeds on it (CPython's non-strict `a2b_base64` discards
characters outside the alphabet), writing an empty byte string instead of
raising a decode error. -/
theorem decodeImage_malformed_succeeds :
    wellFormedB64 "####".data = false
    ∧ decodeImage "####" "out.png" [] = (.ok (), [("out.png", [])]) :=
  ⟨by decide, rfl⟩

/-- C4 (amended): `decodeImage` never raises a decode error on well-formed
base64 input; it raises `binascii.Error` only on some malformed inputs
(those whose data characters leave an incomplete final group), while other
malformed inputs — e.g. strings of non-alphabet characters, which are
silently discarded — decode successfully. -/
theorem decodeImage_wellformed_ok (s out : String) (fs : List (String × List Nat))
    (h : wellFormedB64 s.data = true) :
    (decodeImage s out fs).1 = .ok () := by
  have hascii : s.data.all (fun c => c.toNat < 128) = true :=
    wellFormedB64_ascii s.data.length s.data le_rfl h
  obtain ⟨bs, hbs⟩ := a2bAux_ok_of_wf_aux s.data.length s.data le_rfl h 0 0 0 []
  have hb64 : b64decode s = .ok bs := by
    unfold b64decode
    rw [if_pos hascii, hbs]
  unfold decodeImage
  rw [hb64]

theorem decodeImage_wellformed_ok_witness :
    (decodeImage "Zg==" "out.png" []).1 = .ok () :=
  decodeImage_wellformed_ok "Zg==" "out.png" [] (by decide)

/-- C7: `encodeImageIntoBase64` raises `FileNotFoundError` when the path
does not exist; on an existing file it returns the base64 encoding of the
file's full contents, an encoding faithful enough that decoding it returns
exactly those contents. -/
theorem encodeImageIntoBase64_contract (fs : List (String × List Nat)) (p : String) :
    (fsRead fs p = none → encodeImageIntoBase64 p fs = .error .fileNotFoundError)
    ∧ (∀ b, fsRead fs p = some b → (∀ x ∈ b, x < 256) →
        encodeImageIntoBase64 p fs = .ok (String.mk (b64encode b))
          ∧ b64decode (String.mk (b64encode b)) = .ok b) := by
  constructor
  · intro h
    unfold encodeImageIntoBase64
    rw [h]
  · intro b hread hb
    refine ⟨?_, b64decode_encode b hb⟩
    unfold encodeImageIntoBase64
    rw [hread]

theorem encodeImageIntoBase64_contract_witness :
    encodeImageIntoBase64 "missing.png" [("img.png", [102])]
      = .error .fileNotFoundError
    ∧ encodeImageIntoBase64 "img.png" [("img.png", [102])] = .ok "Zg==" := by
  constructor
  · exact (encodeImageIntoBase64_contract [("img.png", [102])] "missing.png").1 rfl
  · exact ((encodeImageIntoBase64_contract [("img.png", [102])] "img.png").2
      [102] rfl (by decide)).1

/-- C8: on input whose base64 decoding succeeds, `decodeImage` writes the
decoded bytes to the output path; the previous contents of that path are
replaced entirely (the file is opened in `"wb"` mode), and no other path is
affected. -/
theorem decodeImage_overwrites (s outP : String) (fs : List (String × List Nat))
    (d : List Nat) (h : b64decode s = .ok d) :
    decodeImage s outP fs = (.ok (), fsWrite fs outP d)
    ∧ fsRead (fsWrite fs outP d) outP = some d
    ∧ ∀ q, q ≠ outP → fsRead (fsWrite fs outP d) q = fsRead fs q := by
  refine ⟨?_, fsRead_fsWrite_same fs outP d,
    fun q hq => fsRead_fsWrite_other fs outP q d hq⟩
  unfold decodeImage
  rw [h]

theorem decodeImage_overwrites_witness :
    decodeImage "Zg==" "img.png" [("img.png", [9, 9, 9])]
      = (.ok (), [("img.png", [102])])
    ∧ fsRead [("img.png", [102])] "img.png" = some [102]
    ∧ fsRead [("img.png", [102])] "other.png"
        = fsRead [("img.png", [9, 9, 9])] "other.png" := by
  have h := decodeImage_overwrites "Zg==" "img.png" [("img.png", [9, 9, 9])] [102] rfl
  exact ⟨h.1, h.2.1, h.2.2 "other.png" (by decide)⟩

/-- C9: when base64 decoding fails, `decodeImage` raises before the output
file is opened for writing, so the filesystem is unchanged: the output file
is neither created nor modified. -/
theorem decodeImage_error_fs_unchanged (s p : String) (fs : List (String × List Nat))
    (e : PyError) (h : b64decode s = .error e) :
    decodeImage s p fs = (.error e, fs)
    ∧ (decodeImage s p fs).2 = fs
    ∧ fsRead (decodeImage s p fs).2 p = fsRead fs p := by
  have h1 : decodeImage s p fs = (.error e, fs) := by
    unfold decodeImage
    rw [h]
  exact ⟨h1, by rw [h1], by rw [h1]⟩

theorem decodeImage_error_fs_unchanged_witness :
    decodeImage "a" "out.png" [("keep.png", [1])]
      = (.error (.binasciiError ("Invalid base64-encoded string: number of data characters (1) cannot be 1 more than a multiple of 4")), [("keep.png", [1])])
    ∧ fsRead (decodeImage "a" "out.png" [("keep.png", [1])]).2 "out.png"
        = fsRead [("keep.png", [1])] "out.png" := by
  have h := decodeImage_error_fs_unchanged "a" "out.png" [("keep.png", [1])]
    (.binasciiError ("Invalid base64-encoded string: number of data characters (1) cannot be 1 more than a multiple of 4")) rfl
  exact ⟨h.1, h.2.2⟩

/-! ## `create_directories`

`create_directories(path_to_directories, verbose=True)` calls
`os.makedirs(path, exist_ok=True)` on each path in the list; `verbose` only
controls logging.  Directory state is modelled as the list of existing
directory paths. -/

def splitPathAux : List Char → List Char → List (List Char)
  | [], acc => [acc.reverse]
  | c :: cs, acc =>
      if c = '/' then acc.reverse :: splitPathAux cs []
      else splitPathAux cs (c :: acc)

/-- Split a path into its `/`-separated components. -/
def splitPath (cs : List Char) : List (List Char) :=
  splitPathAux cs []

/-- Join components back with `/` separators. -/
def joinPath : List (List Char) → List Char
  | [] => []
  | [p] => p
  | p :: ps => p ++ '/' :: joinPath ps

/-- The chain of directories `os.makedirs` ensures for a path: every proper
prefix of its component list, ending with the path itself. -/
def ancestors (p : String) : List String :=
  let parts := splitPath p.data
  (List.range parts.length).map (fun i => String.mk (joinPath (parts.take (i + 1))))

/-- `os.makedirs(path, exist_ok=True)`: create each missing directory along
the path in order; existing directories are left alone and cause no
error. -/
def makedirs (dirs : List String) (p : String) : List String :=
  (ancestors p).foldl (fun ds d => if d ∈ ds then ds else ds ++ [d]) dirs

/-- Shallow embedding of `create_directories` from `common.py`: run
`os.makedirs(path, exist_ok=True)` for each path in the list.  The
`verbose` flag only emits log lines and does not affect the state. -/
def create_directories (path_to_directories : List String)
    (dirs : List String) : List String :=
  path_to_directories.foldl makedirs dirs

theorem mem_foldl_insert (l : List String) (ds : List String) (d : String)
    (h : d ∈ ds) :
    d ∈ l.foldl (fun ds d => if d ∈ ds then ds else ds ++ [d]) ds := by
  induction l generalizing ds with
  | nil => exact h
  | cons a l ih =>
    simp only [List.foldl_cons]
    by_cases ha : a ∈ ds
    · rw [if_pos ha]
      exact ih ds h
    · rw [if_neg ha]
      exact ih _ (by simp [h])

theorem mem_foldl_insert_of_mem_list (l : List String) (ds : List String)
    (a : String) (h : a ∈ l) :
    a ∈ l.foldl (fun ds d => if d ∈ ds then ds else ds ++ [d]) ds := by
  induction l generalizing ds with
  | nil => cases h
  | cons b l ih =>
    simp only [List.foldl_cons]
    rcases List.mem_cons.mp h with rfl | h2
    · apply mem_foldl_insert
      by_cases hb : a ∈ ds
      · rw [if_pos hb]
        exact hb
      · rw [if_neg hb]
        simp
    · exact ih _ h2

theorem foldl_insert_noop (l : List String) (ds : List String)
    (h : ∀ a ∈ l, a ∈ ds) :
    l.foldl (fun ds d => if d ∈ ds then ds else ds ++ [d]) ds = ds := by
  induction l with
  | cons a l ih =>
    rw [List.foldl_cons, if_pos (h a (by simp))]
    exact ih fun b hb => h b (by simp [hb])
  | nil => rfl

theorem mem_create_directories_of_mem (paths : List String) (ds : List String)
    (d : String) (h : d ∈ ds) : d ∈ create_directories paths ds := by
  induction paths generalizing ds with
  | nil => exact h
  | cons p rest ih =>
    simp only [create_directories, List.foldl_cons]
    exact ih _ (mem_foldl_insert _ _ _ h)

theorem ancestor_mem_create_directories (paths : List String) (ds : List String)
    (p : String) (hp : p ∈ paths) (a : String) (ha : a ∈ ancestors p) :
    a ∈ create_directories paths ds := by
  induction paths generalizing ds with
  | nil => cases hp
  | cons q rest ih =>
    simp only [create_directories, List.foldl_cons]
    rcases List.mem_cons.mp hp with rfl | h2
    · exact mem_create_directories_of_mem rest _ a
        (mem_foldl_insert_of_mem_list _ _ _ ha)
    · exact ih _ h2

theorem create_directories_noop (paths : List String) (D : List String)
    (h : ∀ p ∈ paths, ∀ a ∈ ancestors p, a ∈ D) :
    create_directories paths D = D := by
  induction paths with
  | nil => rfl
  | cons q rest ih =>
    simp only [create_directories, List.foldl_cons]
    have hq : makedirs D q = D := foldl_insert_noop _ _ (h q (by simp))
    rw [hq]
    exact ih fun p hp a ha => h p (by simp [hp]) a ha

/-- C5: `create_directories` is a total function (no error regardless of
which directories already exist), keeps every existing directory, creates
every missing ancestor of every requested path, and is idempotent: running
it a second time on the same paths changes nothing. -/
theorem create_directories_contract (paths ds : List String) :
    (∀ d ∈ ds, d ∈ create_directories paths ds)
    ∧ (∀ p ∈ paths, ∀ a ∈ ancestors p, a ∈ create_directories paths ds)
    ∧ create_directories paths (create_directories paths ds)
        = create_directories paths ds := by
  refine ⟨fun d hd => mem_create_directories_of_mem paths ds d hd,
    fun p hp a ha => ancestor_mem_create_directories paths ds p hp a ha, ?_⟩
  exact create_directories_noop paths _
    (fun p hp a ha => ancestor_mem_create_directories paths ds p hp a ha)

theorem create_directories_contract_witness :
    ("base" ∈ create_directories ["base/sub", "data"] ["base"])
    ∧ ("base/sub" ∈ create_directories ["base/sub", "data"] ["base"])
    ∧ create_directories ["base/sub", "data"]
        (create_directories ["base/sub", "data"] ["base"])
      = create_directories ["base/sub", "data"] ["base"] := by
  have h := create_directories_contract ["base/sub", "data"] ["base"]
  exact ⟨h.1 "base" (by decide), h.2.1 "base/sub" (by decide) "base/sub" (by decide),
    h.2.2⟩

/-! ## `get_size` -/

/-- Python's built-in `round` applied to `n / 1024`: for `n < 2 ^ 53` the
double-precision quotient is exact (division by a power of two), and
`round` performs round-half-to-even. -/
def pyRoundDiv1024 (n : Nat) : Nat :=
  if 512 < n % 1024 then n / 1024 + 1
  else if n % 1024 < 512 then n / 1024
  else if n / 1024 % 2 = 0 then n / 1024
  else n / 1024 + 1

/-- Shallow embedding of `get_size` from `common.py`:
`round(os.path.getsize(path)/1024)` formatted as `"~ {N} KB"`; `getsize`
of a missing path raises `FileNotFoundError` (propagated, there is no
handler). -/
def get_size (fs : List (String × List Nat)) (path : String) :
    Except PyError String :=
  match fsRead fs path with
  | none => .error .fileNotFoundError
  | some content => .ok ("~ " ++ toString (pyRoundDiv1024 content.length) ++ " KB")

/-- C6: on an existing file of `n` bytes (with `n` small enough that the
float quotient is exact), `get_size` returns `"~ {N} KB"` where `N` is a
nearest integer to `n / 1024` — `|1024 * N - n| ≤ 512`; on a 2048-byte
file the result is `"~ 2 KB"`. -/
theorem get_size_contract (fs : List (String × List Nat)) (path : String)
    (content : List Nat) (h : fsRead fs path = some content)
    (hsize : content.length < 2 ^ 53) :
    get_size fs path
      = .ok ("~ " ++ toString (pyRoundDiv1024 content.length) ++ " KB")
    ∧ (1024 * (pyRoundDiv1024 content.length : Int) - content.length).natAbs ≤ 512
    ∧ pyRoundDiv1024 2048 = 2 := by
  refine ⟨?_, ?_, by decide⟩
  · unfold get_size
    rw [h]
  · unfold pyRoundDiv1024
    split_ifs with h1 h2 h3 <;> omega

theorem get_size_contract_witness :
    get_size [("model.h5", List.replicate 2048 (0 : Nat))] "model.h5"
      = .ok "~ 2 KB"
    ∧ (1024 * (pyRoundDiv1024 2048 : Int) - 2048).natAbs ≤ 512 := by
  have h := get_size_contract [("model.h5", List.replicate 2048 (0 : Nat))]
    "model.h5" (List.replicate 2048 (0 : Nat)) rfl
    (by rw [List.length_replicate]; norm_num)
  simp only [List.length_replicate] at h
  refine ⟨?_, ?_⟩
  · rw [h.1]
    rfl
  · exact_mod_cast h.2.1

/-! ## JSON values, `save_json` and `load_json` -/

inductive Json where
  | null
  | bool (b : Bool)
  | num (n : Int)
  | str (s : List Char)
  | arr (items : List Json)
  | obj (entries : List (List Char × Json))

def digitChar (d : Nat) : Char := Char.ofNat (48 + d)

def natToCharsAux : Nat → Nat → List Char → List Char
  | 0, _, acc => acc
  | fuel + 1, n, acc =>
      if n < 10 then digitChar n :: acc
      else natToCharsAux fuel (n / 10) (digitChar (n % 10) :: acc)

/-- Decimal digits of a natural number, as `repr` prints them. -/
def natToChars (n : Nat) : List Char := natToCharsAux (n + 1) n []

/-- Python `repr` of an `int`: an optional minus sign and decimal digits. -/
def intToChars (i : Int) : List Char :=
  if i < 0 then '-' :: natToChars i.natAbs else natToChars i.toNat

def hexDigitChar (n : Nat) : Char :=
  if n < 10 then Char.ofNat (48 + n) else Char.ofNat (97 + (n - 10))

/-- A `\uXXXX` escape with four lowercase hex digits. -/
def uEscape (n : Nat) : List Char :=
  ['\\', 'u', hexDigitChar (n / 4096 % 16), hexDigitChar (n / 256 % 16),
    hexDigitChar (n / 16 % 16), hexDigitChar (n % 16)]

/-- Escaping of one character by `json.dump` with its default
`ensure_ascii=True`: the two-character escapes for quote, backslash and the
five named control characters; printable ASCII kept as-is; everything else
as `\uXXXX`, with astral characters as a surrogate pair. -/
def escapeChar (c : Char) : List Char :=
  if c = '"' then ['\\', '"']
  else if c = '\\' then ['\\', '\\']
  else if c.toNat = 8 then ['\\', 'b']
  else if c.toNat = 12 then ['\\', 'f']
  else if c.toNat = 10 then ['\\', 'n']
  else if c.toNat = 13 then ['\\', 'r']
  else if c.toNat = 9 then ['\\', 't']
  else if 32 ≤ c.toNat ∧ c.toNat ≤ 126 then [c]
  else if c.toNat < 65536 then uEscape c.toNat
  else uEscape (55296 + (c.toNat - 65536) / 1024) ++
    uEscape (56320 + (c.toNat - 65536) % 1024)

def escapeChars : List Char → List Char
  | [] => []
  | c :: cs => escapeChar c ++ escapeChars cs

/-- A JSON string literal: quote, escaped characters, quote. -/
def encodeString (s : List Char) : List Char :=
  '"' :: escapeChars s ++ ['"']

/-- The newline-plus-indentation separator `json.dump` emits for
`indent=4` at a given nesting level. -/
def indentChars (lvl : Nat) : List Char :=
  '\n' :: List.replicate (4 * lvl) ' '

mutual

/-- The text `json.dump(data, f, indent=4)` writes for a value at a given
nesting level, modelled from `json.encoder`: scalars inline; non-empty
containers spread over lines with 4-space indentation, item separator `,`
plus newline, key separator `: `. -/
def dumpJson : Nat → Json → List Char
  | _, .null => ['n', 'u', 'l', 'l']
  | _, .bool true => ['t', 'r', 'u', 'e']
  | _, .bool false => ['f', 'a', 'l', 's', 'e']
  | _, .num n => intToChars n
  | _, .str s => encodeString s
  | _, .arr [] => ['[', ']']
  | lvl, .arr (x :: xs) =>
      '[' :: indentChars (lvl + 1) ++ dumpJson (lvl + 1) x ++
        dumpArrRest (lvl + 1) xs ++ indentChars lvl ++ [']']
  | _, .obj [] => ['\x7b', '\x7d']
  | lvl, .obj (e :: es) =>
      '\x7b' :: indentChars (lvl + 1) ++ dumpMember (lvl + 1) e ++
        dumpObjRest (lvl + 1) es ++ indentChars lvl ++ ['\x7d']

def dumpArrRest : Nat → List Json → List Char
  | _, [] => []
  | lvl, x :: xs => ',' :: indentChars lvl ++ dumpJson lvl x ++ dumpArrRest lvl xs

def dumpMember : Nat → List Char × Json → List Char
  | lvl, (k, v) => encodeString k ++ ':' :: ' ' :: dumpJson lvl v

def dumpObjRest : Nat → List (List Char × Json) → List Char
  | _, [] => []
  | lvl, e :: es => ',' :: indentChars lvl ++ dumpMember lvl e ++ dumpObjRest lvl es

end

/-! The parser, modelled from `json.decoder` / `json.scanner` (the pure
Python `py_scanstring` / `JSONObject` / `JSONArray` / `py_make_scanner`).
Fuel is threaded structurally; every recursive call consumes at least one
input character, so any fuel exceeding the input length is enough.  Two
deliberate deviations from CPython, both invisible on `json.dump` output:
float literals are not modelled (the fraction/exponent part of the number
grammar is absent), and escape sequences denoting lone UTF-16 surrogates
are rejected rather than producing unpaired surrogates, which Lean's `Char`
cannot represent. -/

def isJsonWs (c : Char) : Bool :=
  c = ' ' || c = '\t' || c = '\n' || c = '\r'

def skipWs : List Char → List Char
  | [] => []
  | c :: cs => if isJsonWs c then skipWs cs else c :: cs

def charsVal (a : Nat) (ds : List Char) : Nat :=
  ds.foldl (fun a c => a * 10 + (c.toNat - 48)) a

def digitsVal (a : Nat) : List Char → Nat × List Char
  | [] => (a, [])
  | c :: cs => if c.isDigit then digitsVal (a * 10 + (c.toNat - 48)) cs else (a, c :: cs)

/-- The integer part of the number grammar `(-?(0|[1-9]\d*))`: a literal
zero is not followed by more digits. -/
def parseNat : List Char → Option (Nat × List Char)
  | [] => none
  | c :: cs =>
      if c = '0' then some (0, cs)
      else if c.isDigit then some (digitsVal (c.toNat - 48) cs)
      else none

def parseNumber : List Char → Option (Json × List Char)
  | [] => none
  | c :: cs =>
      if c = '-' then
        match parseNat cs with
        | some (n, rest) => some (.num (-(n : Int)), rest)
        | none => none
      else
        match parseNat (c :: cs) with
        | some (n, rest) => some (.num ((n : Int)), rest)
        | none => none

def hexVal (c : Char) : Option Nat :=
  if 48 ≤ c.toNat ∧ c.toNat ≤ 57 then some (c.toNat - 48)
  else if 97 ≤ c.toNat ∧ c.toNat ≤ 102 then some (c.toNat - 97 + 10)
  else if 65 ≤ c.toNat ∧ c.toNat ≤ 70 then some (c.toNat - 65 + 10)
  else none

def parse4Hex : List Char → Option (Nat × List Char)
  | c1 :: c2 :: c3 :: c4 :: cs =>
      match hexVal c1, hexVal c2, hexVal c3, hexVal c4 with
      | some h1, some h2, some h3, some h4 =>
          some (h1 * 4096 + h2 * 256 + h3 * 16 + h4, cs)
      | _, _, _, _ => none
  | _ => none

/-- `py_scanstring` after the opening quote: a run of literal characters
(controls are rejected in the default strict mode) and backslash escapes,
up to the closing quote; `\uXXXX` escapes combine surrogate pairs. -/
def parseStringBody : Nat → List Char → List Char → Option (List Char × List Char)
  | 0, _, _ => none
  | _ + 1, _, [] => none
  | fuel + 1, acc, c :: cs =>
      if c = '"' then some (acc.reverse, cs)
      else if c = '\\' then
        match cs with
        | [] => none
        | e :: cs2 =>
            if e = '"' then parseStringBody fuel ('"' :: acc) cs2
            else if e = '\\' then parseStringBody fuel ('\\' :: acc) cs2
            else if e = '/' then parseStringBody fuel ('/' :: acc) cs2
            else if e = 'b' then parseStringBody fuel (Char.ofNat 8 :: acc) cs2
            else if e = 'f' then parseStringBody fuel (Char.ofNat 12 :: acc) cs2
            else if e = 'n' then parseStringBody fuel (Char.ofNat 10 :: acc) cs2
            else if e = 'r' then parseStringBody fuel (Char.ofNat 13 :: acc) cs2
            else if e = 't' then parseStringBody fuel (Char.ofNat 9 :: acc) cs2
            else if e = 'u' then
              match parse4Hex cs2 with
              | none => none
              | some (n, cs3) =>
                  if 55296 ≤ n ∧ n ≤ 56319 then
                    match cs3 with
                    | d1 :: d2 :: cs4 =>
                        if d1 = '\\' ∧ d2 = 'u' then
                          match parse4Hex cs4 with
                          | some (m, cs5) =>
                              if 56320 ≤ m ∧ m ≤ 57343 then
                                parseStringBody fuel
                                  (Char.ofNat (65536 + (n - 55296) * 1024 + (m - 56320)) :: acc) cs5
                              else none
                          | none => none
                        else none
                    | _ => none
                  else if 56320 ≤ n ∧ n ≤ 57343 then none
                  else parseStringBody fuel (Char.ofNat n :: acc) cs3
            else none
      else if c.toNat < 32 then none
      else parseStringBody fuel (c :: acc) cs

def dropLit : List Char → List Char → Option (List Char)
  | [], cs => some cs
  | _, [] => none
  | l :: ls, c :: cs => if c = l then dropLit ls cs else none

mutual

/-- `scan_once` of the Python scanner at a position holding a value:
dispatch on the first character to string, object, array, the three
constant literals, or a number. -/
def parseValue : Nat → List Char → Option (Json × List Char)
  | 0, _ => none
  | _ + 1, [] => none
  | fuel + 1, c :: cs =>
      if c = '"' then
        match parseStringBody fuel [] cs with
        | some (s, rest) => some (.str s, rest)
        | none => none
      else if c = '[' then
        match skipWs cs with
        | [] => none
        | d :: cs2 =>
            if d = ']' then some (.arr [], cs2)
            else
              match parseValue fuel (d :: cs2) with
              | some (v, rest) => parseArrRest fuel [v] rest
              | none => none
      else if c = '\x7b' then
        match skipWs cs with
        | [] => none
        | d :: cs2 =>
            if d = '\x7d' then some (.obj [], cs2)
            else if d = '"' then
              match parseStringBody fuel [] cs2 with
              | some (k, rest) => parseMemberValue fuel [] k rest
              | none => none
            else none
      else if c = 'n' then
        match dropLit ['u', 'l', 'l'] cs with
        | some rest => some (.null, rest)
        | none => none
      else if c = 't' then
        match dropLit ['r', 'u', 'e'] cs with
        | some rest => some (.bool true, rest)
        | none => none
      else if c = 'f' then
        match dropLit ['a', 'l', 's', 'e'] cs with
        | some rest => some (.bool false, rest)
        | none => none
      else parseNumber (c :: cs)

/-- The element loop of `JSONArray`: after each element, optional
whitespace, then `]` to finish or `,` plus optional whitespace before the
next element. -/
def parseArrRest : Nat → List Json → List Char → Option (Json × List Char)
  | 0, _, _ => none
  | fuel + 1, acc, cs =>
      match skipWs cs with
      | [] => none
      | c :: cs2 =>
          if c = ']' then some (.arr acc.reverse, cs2)
          else if c = ',' then
            match parseValue fuel (skipWs cs2) with
            | some (v, rest) => parseArrRest fuel (v :: acc) rest
            | none => none
          else none

/-- The `JSONObject` step after a key has been read: optional whitespace,
`:`, optional whitespace, the value, then the member loop. -/
def parseMemberValue : Nat → List (List Char × Json) → List Char → List Char →
    Option (Json × List Char)
  | 0, _, _, _ => none
  | fuel + 1, acc, k, cs =>
      match skipWs cs with
      | [] => none
      | c :: cs2 =>
          if c = ':' then
            match parseValue fuel (skipWs cs2) with
            | some (v, rest) => parseObjRest fuel ((k, v) :: acc) rest
            | none => none
          else none

/-- The member loop of `JSONObject`: `\x7d` to finish or `,`, whitespace,
and the next `"`-delimited key. -/
def parseObjRest : Nat → List (List Char × Json) → List Char →
    Option (Json × List Char)
  | 0, _, _ => none
  | fuel + 1, acc, cs =>
      match skipWs cs with
      | [] => none
      | c :: cs2 =>
          if c = '\x7d' then some (.obj acc.reverse, cs2)
          else if c = ',' then
            match skipWs cs2 with
            | [] => none
            | d :: cs3 =>
                if d = '"' then
                  match parseStringBody fuel [] cs3 with
                  | some (k, rest) => parseMemberValue fuel acc k rest
                  | none => none
                else none
          else none

end

/-- `json.loads` (as called by `json.load` on the file's text): skip
leading whitespace, scan one value, and require only whitespace to follow;
any failure is a `json.JSONDecodeError`. -/
def json_loads (text : String) : Except PyError Json :=
  match parseValue (text.length + 1) (skipWs text.data) with
  | none => .error .jsonDecodeError
  | some (v, rest) =>
      if skipWs rest = [] then .ok v else .error .jsonDecodeError


theorem char_valid_ranges (c : Char) :
    c.toNat < 55296 ∨ (57344 ≤ c.toNat ∧ c.toNat < 1114112) := by
  rcases c.valid with h | ⟨h1, h2⟩
  · left
    exact_mod_cast h
  · right
    exact ⟨by exact_mod_cast h1, by exact_mod_cast h2⟩

theorem char_ne_of_toNat_ne {a b : Char} (h : a.toNat ≠ b.toNat) : ¬ (a = b) :=
  fun hc => h (congrArg Char.toNat hc)

theorem toNat_digitChar (d : Nat) (h : d < 10) : (digitChar d).toNat = 48 + d :=
  char_toNat_ofNat (48 + d) (by omega)

theorem digitChar_isDigit (d : Nat) (h : d < 10) : (digitChar d).isDigit = true := by
  interval_cases d <;> decide

/-- Unfolding `natToCharsAux` at any sufficient fuel. -/
theorem natToCharsAux_eq (n : Nat) :
    ∀ fuel acc, n < fuel → natToCharsAux fuel n acc = natToChars n ++ acc := by
  induction n using Nat.strong_induction_on with
  | _ n ih =>
    intro fuel acc h
    obtain ⟨f, rfl⟩ : ∃ f, fuel = f + 1 := ⟨fuel - 1, by omega⟩
    by_cases h10 : n < 10
    · simp [natToCharsAux, natToChars, h10]
    · have hd : n / 10 < n := Nat.div_lt_self (by omega) (by omega)
      rw [show natToCharsAux (f + 1) n acc
            = natToCharsAux f (n / 10) (digitChar (n % 10) :: acc) by
          simp [natToCharsAux, h10]]
      rw [ih (n / 10) hd f (digitChar (n % 10) :: acc) (by omega)]
      rw [show natToChars n = natToCharsAux n (n / 10) [digitChar (n % 10)] by
          simp [natToChars, natToCharsAux, h10]]
      rw [ih (n / 10) hd n [digitChar (n % 10)] (by omega)]
      simp

theorem natToChars_split (n : Nat) (h : 10 ≤ n) :
    natToChars n = natToChars (n / 10) ++ [digitChar (n % 10)] := by
  rw [show natToChars n = natToCharsAux n (n / 10) [digitChar (n % 10)] by
      simp [natToChars, natToCharsAux, show ¬ n < 10 by omega]]
  exact natToCharsAux_eq (n / 10) n [digitChar (n % 10)]
    (Nat.div_lt_self (by omega) (by omega))

theorem natToChars_small (n : Nat) (h : n < 10) : natToChars n = [digitChar n] := by
  simp [natToChars, natToCharsAux, h]

theorem natToChars_all_digits (n : Nat) :
    ∀ c ∈ natToChars n, c.isDigit = true := by
  induction n using Nat.strong_induction_on with
  | _ n ih =>
    by_cases h10 : n < 10
    · rw [natToChars_small n h10]
      intro c hc
      rw [List.mem_singleton.mp hc]
      exact digitChar_isDigit n h10
    · rw [natToChars_split n (by omega)]
      intro c hc
      have hlt : n / 10 < n := Nat.div_lt_self (by omega) (by omega)
      cases List.mem_append.mp hc with
      | inl h => exact ih _ hlt c h
      | inr h =>
        rw [List.mem_singleton.mp h]
        exact digitChar_isDigit (n % 10) (Nat.mod_lt n (by omega))

theorem charsVal_natToChars (n : Nat) :
    ∀ a, charsVal a (natToChars n) = a * 10 ^ (natToChars n).length + n := by
  induction n using Nat.strong_induction_on with
  | _ n ih =>
    intro a
    by_cases h10 : n < 10
    · rw [natToChars_small n h10]
      simp [charsVal, toNat_digitChar n h10]
    · rw [natToChars_split n (by omega)]
      rw [charsVal, List.foldl_append]
      rw [show List.foldl (fun a c => a * 10 + (c.toNat - 48)) a (natToChars (n / 10))
            = charsVal a (natToChars (n / 10)) from rfl]
      rw [ih (n / 10) (Nat.div_lt_self (by omega) (by omega)) a]
      simp only [List.foldl_cons, List.foldl_nil, List.length_append,
        List.length_singleton]
      rw [toNat_digitChar (n % 10) (Nat.mod_lt n (by omega))]
      rw [pow_succ]
      have hmod : 48 + n % 10 - 48 = n % 10 := by omega
      rw [hmod]
      have : (a * (10 ^ (natToChars (n / 10)).length * 10))
          = (a * 10 ^ (natToChars (n / 10)).length) * 10 := by ring
      rw [this]
      omega

theorem digitsVal_append (ds : List Char) :
    ∀ a rest, (∀ c ∈ ds, c.isDigit = true) →
      digitsVal a (ds ++ rest) = digitsVal (charsVal a ds) rest := by
  induction ds with
  | nil => intro a rest _; rfl
  | cons c ds ih =>
    intro a rest h
    have hc : c.isDigit = true := h c (by simp)
    rw [List.cons_append, digitsVal, if_pos hc]
    rw [ih _ rest (fun d hd => h d (by simp [hd]))]
    rfl

def headNotDigit : List Char → Prop
  | [] => True
  | c :: _ => c.isDigit = false

theorem digitsVal_stop (a : Nat) (rest : List Char) (h : headNotDigit rest) :
    digitsVal a rest = (a, rest) := by
  cases rest with
  | nil => rfl
  | cons c cs =>
    have hc : c.isDigit = false := h
    rw [digitsVal, if_neg (by simp [hc])]

theorem natToChars_head (n : Nat) :
    ∃ d ds, natToChars n = digitChar d :: ds ∧ d < 10 ∧ (0 < n → 0 < d) := by
  induction n using Nat.strong_induction_on with
  | _ n ih =>
    by_cases h10 : n < 10
    · exact ⟨n, [], natToChars_small n h10, h10, fun h => h⟩
    · obtain ⟨d, ds, hds, hd10, hdpos⟩ := ih (n / 10) (Nat.div_lt_self (by omega) (by omega))
      refine ⟨d, ds ++ [digitChar (n % 10)], ?_, hd10, fun _ => hdpos (by omega)⟩
      rw [natToChars_split n (by omega), hds]
      rfl

theorem parseNat_natToChars (n : Nat) (rest : List Char) (hrest : headNotDigit rest) :
    parseNat (natToChars n ++ rest) = some (n, rest) := by
  by_cases h0 : n = 0
  · subst h0
    rw [natToChars_small 0 (by omega)]
    rw [show digitChar 0 = '0' from rfl]
    simp [parseNat, digitsVal_stop 0 rest hrest]
  · obtain ⟨d, ds, hds, hd10, hdpos⟩ := natToChars_head n
    have hdpos' : 0 < d := hdpos (by omega)
    have hall : ∀ c ∈ ds, c.isDigit = true := by
      intro c hc
      exact natToChars_all_digits n c (by rw [hds]; exact List.mem_cons_of_mem _ hc)
    have hval : charsVal d ds = n := by
      have h1 : charsVal 0 (natToChars n) = n := by
        rw [charsVal_natToChars n 0]
        simp
      rw [hds] at h1
      rw [charsVal, List.foldl_cons, toNat_digitChar d hd10] at h1
      rw [show 0 * 10 + (48 + d - 48) = d by omega] at h1
      exact h1
    rw [hds, List.cons_append, parseNat]
    rw [if_neg (char_ne_of_toNat_ne (by
      rw [toNat_digitChar d hd10, show ('0').toNat = 48 from rfl]
      omega))]
    rw [if_pos (digitChar_isDigit d hd10)]
    rw [toNat_digitChar d hd10, show 48 + d - 48 = d by omega]
    rw [digitsVal_append ds d rest hall, digitsVal_stop _ rest hrest, hval]

theorem parseNumber_intToChars (i : Int) (rest : List Char) (hrest : headNotDigit rest) :
    parseNumber (intToChars i ++ rest) = some (.num i, rest) := by
  by_cases hneg : i < 0
  · rw [intToChars, if_pos hneg, List.cons_append, parseNumber]
    rw [if_pos rfl]
    rw [parseNat_natToChars i.natAbs rest hrest]
    show some (Json.num (-(i.natAbs : Int)), rest) = some (Json.num i, rest)
    rw [show -(i.natAbs : Int) = i by omega]
  · rw [intToChars, if_neg hneg]
    obtain ⟨d, ds, hds, hd10, _⟩ := natToChars_head i.toNat
    rw [hds, List.cons_append, parseNumber]
    rw [if_neg (char_ne_of_toNat_ne (by
      rw [toNat_digitChar d hd10, show ('-').toNat = 45 from rfl]
      omega))]
    rw [← List.cons_append, ← hds]
    rw [parseNat_natToChars i.toNat rest hrest]
    show some (Json.num ((i.toNat : Int)), rest) = some (Json.num i, rest)
    rw [show ((i.toNat : Nat) : Int) = i by omega]

theorem hexVal_hexDigitChar (d : Nat) (h : d < 16) :
    hexVal (hexDigitChar d) = some d := by
  unfold hexDigitChar hexVal
  by_cases h10 : d < 10
  · rw [if_pos h10, char_toNat_ofNat (48 + d) (by omega)]
    rw [if_pos ⟨by omega, by omega⟩]
    congr 1
    omega
  · rw [if_neg h10, char_toNat_ofNat (97 + (d - 10)) (by omega)]
    rw [if_neg (by omega), if_pos ⟨by omega, by omega⟩]
    congr 1
    omega

theorem parse4Hex_hexDigits (n : Nat) (h : n < 65536) (rest : List Char) :
    parse4Hex (hexDigitChar (n / 4096 % 16) :: hexDigitChar (n / 256 % 16) ::
      hexDigitChar (n / 16 % 16) :: hexDigitChar (n % 16) :: rest) = some (n, rest) := by
  rw [parse4Hex]
  rw [hexVal_hexDigitChar (n / 4096 % 16) (by omega),
    hexVal_hexDigitChar (n / 256 % 16) (by omega),
    hexVal_hexDigitChar (n / 16 % 16) (by omega),
    hexVal_hexDigitChar (n % 16) (by omega)]
  show some (n / 4096 % 16 * 4096 + n / 256 % 16 * 256 + n / 16 % 16 * 16 + n % 16, rest)
    = some (n, rest)
  rw [show n / 4096 % 16 * 4096 + n / 256 % 16 * 256 + n / 16 % 16 * 16 + n % 16 = n
    by omega]

theorem parseStringBody_close (f : Nat) (acc tail : List Char) :
    parseStringBody (f + 1) acc ('"' :: tail) = some (acc.reverse, tail) := rfl

theorem parseStringBody_quote (f : Nat) (acc tail : List Char) :
    parseStringBody (f + 1) acc ('\\' :: '"' :: tail)
      = parseStringBody f ('"' :: acc) tail := rfl

theorem parseStringBody_bslash (f : Nat) (acc tail : List Char) :
    parseStringBody (f + 1) acc ('\\' :: '\\' :: tail)
      = parseStringBody f ('\\' :: acc) tail := rfl

theorem parseStringBody_bs (f : Nat) (acc tail : List Char) :
    parseStringBody (f + 1) acc ('\\' :: 'b' :: tail)
      = parseStringBody f (Char.ofNat 8 :: acc) tail := rfl

theorem parseStringBody_ff (f : Nat) (acc tail : List Char) :
    parseStringBody (f + 1) acc ('\\' :: 'f' :: tail)
      = parseStringBody f (Char.ofNat 12 :: acc) tail := rfl

theorem parseStringBody_nl (f : Nat) (acc tail : List Char) :
    parseStringBody (f + 1) acc ('\\' :: 'n' :: tail)
      = parseStringBody f (Char.ofNat 10 :: acc) tail := rfl

theorem parseStringBody_cr (f : Nat) (acc tail : List Char) :
    parseStringBody (f + 1) acc ('\\' :: 'r' :: tail)
      = parseStringBody f (Char.ofNat 13 :: acc) tail := rfl

theorem parseStringBody_tab (f : Nat) (acc tail : List Char) :
    parseStringBody (f + 1) acc ('\\' :: 't' :: tail)
      = parseStringBody f (Char.ofNat 9 :: acc) tail := rfl

theorem parseStringBody_after_u (f : Nat) (acc : List Char) (cs2 : List Char) :
    parseStringBody (f + 1) acc ('\\' :: 'u' :: cs2)
      = match parse4Hex cs2 with
        | none => none
        | some (n, cs3) =>
            if 55296 ≤ n ∧ n ≤ 56319 then
              match cs3 with
              | d1 :: d2 :: cs4 =>
                  if d1 = '\\' ∧ d2 = 'u' then
                    match parse4Hex cs4 with
                    | some (m, cs5) =>
                        if 56320 ≤ m ∧ m ≤ 57343 then
                          parseStringBody f
                            (Char.ofNat (65536 + (n - 55296) * 1024 + (m - 56320)) :: acc)
                            cs5
                        else none
                    | none => none
                  else none
              | _ => none
            else if 56320 ≤ n ∧ n ≤ 57343 then none
            else parseStringBody f (Char.ofNat n :: acc) cs3 := rfl

theorem parseStringBody_lit (f : Nat) (acc tail : List Char) (c : Char)
    (h1 : ¬ (c = '"')) (h2 : ¬ (c = '\\')) (h3 : ¬ (c.toNat < 32)) :
    parseStringBody (f + 1) acc (c :: tail)
      = parseStringBody f (c :: acc) tail := by
  rw [parseStringBody.eq_def]
  dsimp only
  rw [if_neg h1, if_neg h2, if_neg h3]

theorem parseStringBody_escapeChars (s : List Char) :
    ∀ fuel acc rest, s.length < fuel →
      parseStringBody fuel acc (escapeChars s ++ '"' :: rest)
        = some (acc.reverse ++ s, rest) := by
  induction s with
  | nil =>
    intro fuel acc rest h
    obtain ⟨f, rfl⟩ : ∃ f, fuel = f + 1 := ⟨fuel - 1, by omega⟩
    rw [escapeChars, List.nil_append, parseStringBody_close]
    simp
  | cons c s ih =>
    intro fuel acc rest h
    obtain ⟨f, rfl⟩ : ∃ f, fuel = f + 1 := ⟨fuel - 1, by omega⟩
    have hf : s.length < f := by
      simp only [List.length_cons] at h
      omega
    rw [escapeChars, List.append_assoc]
    unfold escapeChar
    by_cases h1 : c = '"'
    · rw [if_pos h1]
      show parseStringBody (f + 1) acc ('\\' :: '"' :: (escapeChars s ++ '"' :: rest)) = _
      rw [parseStringBody_quote, ih f ('"' :: acc) rest hf]
      rw [h1]
      simp
    · rw [if_neg h1]
      by_cases h2 : c = '\\'
      · rw [if_pos h2]
        show parseStringBody (f + 1) acc ('\\' :: '\\' :: (escapeChars s ++ '"' :: rest)) = _
        rw [parseStringBody_bslash, ih f ('\\' :: acc) rest hf]
        rw [h2]
        simp
      · rw [if_neg h2]
        by_cases h3 : c.toNat = 8
        · rw [if_pos h3]
          show parseStringBody (f + 1) acc ('\\' :: 'b' :: (escapeChars s ++ '"' :: rest)) = _
          rw [parseStringBody_bs, ih f (Char.ofNat 8 :: acc) rest hf]
          rw [show Char.ofNat 8 = c by rw [← h3, Char.ofNat_toNat]]
          simp
        · rw [if_neg h3]
          by_cases h4 : c.toNat = 12
          · rw [if_pos h4]
            show parseStringBody (f + 1) acc
              ('\\' :: 'f' :: (escapeChars s ++ '"' :: rest)) = _
            rw [parseStringBody_ff, ih f (Char.ofNat 12 :: acc) rest hf]
            rw [show Char.ofNat 12 = c by rw [← h4, Char.ofNat_toNat]]
            simp
          · rw [if_neg h4]
            by_cases h5 : c.toNat = 10
            · rw [if_pos h5]
              show parseStringBody (f + 1) acc
                ('\\' :: 'n' :: (escapeChars s ++ '"' :: rest)) = _
              rw [parseStringBody_nl, ih f (Char.ofNat 10 :: acc) rest hf]
              rw [show Char.ofNat 10 = c by rw [← h5, Char.ofNat_toNat]]
              simp
            · rw [if_neg h5]
              by_cases h6 : c.toNat = 13
              · rw [if_pos h6]
                show parseStringBody (f + 1) acc
                  ('\\' :: 'r' :: (escapeChars s ++ '"' :: rest)) = _
                rw [parseStringBody_cr, ih f (Char.ofNat 13 :: acc) rest hf]
                rw [show Char.ofNat 13 = c by rw [← h6, Char.ofNat_toNat]]
                simp
              · rw [if_neg h6]
                by_cases h7 : c.toNat = 9
                · rw [if_pos h7]
                  show parseStringBody (f + 1) acc
                    ('\\' :: 't' :: (escapeChars s ++ '"' :: rest)) = _
                  rw [parseStringBody_tab, ih f (Char.ofNat 9 :: acc) rest hf]
                  rw [show Char.ofNat 9 = c by rw [← h7, Char.ofNat_toNat]]
                  simp
                · rw [if_neg h7]
                  by_cases h8 : 32 ≤ c.toNat ∧ c.toNat ≤ 126
                  · rw [if_pos h8]
                    show parseStringBody (f + 1) acc
                      (c :: (escapeChars s ++ '"' :: rest)) = _
                    rw [parseStringBody_lit f acc _ c h1 h2 (by omega)]
                    rw [ih f (c :: acc) rest hf]
                    simp
                  · rw [if_neg h8]
                    by_cases h9 : c.toNat < 65536
                    · rw [if_pos h9]
                      have hval := char_valid_ranges c
                      rw [uEscape]
                      show parseStringBody (f + 1) acc
                        ('\\' :: 'u' :: (hexDigitChar (c.toNat / 4096 % 16) ::
                          hexDigitChar (c.toNat / 256 % 16) ::
                          hexDigitChar (c.toNat / 16 % 16) ::
                          hexDigitChar (c.toNat % 16) ::
                          (escapeChars s ++ '"' :: rest))) = _
                      rw [parseStringBody_after_u]
                      rw [parse4Hex_hexDigits c.toNat h9]
                      dsimp only
                      rw [if_neg (by omega), if_neg (by omega)]
                      rw [ih f (Char.ofNat c.toNat :: acc) rest hf]
                      rw [Char.ofNat_toNat]
                      simp
                    · rw [if_neg h9]
                      have hval := char_valid_ranges c
                      have hhi : c.toNat < 1114112 := by omega
                      rw [uEscape, uEscape]
                      show parseStringBody (f + 1) acc
                        ('\\' :: 'u' :: (hexDigitChar ((55296 + (c.toNat - 65536) / 1024) / 4096 % 16) ::
                          hexDigitChar ((55296 + (c.toNat - 65536) / 1024) / 256 % 16) ::
                          hexDigitChar ((55296 + (c.toNat - 65536) / 1024) / 16 % 16) ::
                          hexDigitChar ((55296 + (c.toNat - 65536) / 1024) % 16) ::
                          ('\\' :: 'u' :: (hexDigitChar ((56320 + (c.toNat - 65536) % 1024) / 4096 % 16) ::
                            hexDigitChar ((56320 + (c.toNat - 65536) % 1024) / 256 % 16) ::
                            hexDigitChar ((56320 + (c.toNat - 65536) % 1024) / 16 % 16) ::
                            hexDigitChar ((56320 + (c.toNat - 65536) % 1024) % 16) ::
                            (escapeChars s ++ '"' :: rest))))) = _
                      rw [parseStringBody_after_u]
                      rw [parse4Hex_hexDigits (55296 + (c.toNat - 65536) / 1024) (by omega)]
                      dsimp only
                      rw [if_pos ⟨by omega, by omega⟩]
                      rw [if_pos ⟨rfl, rfl⟩]
                      rw [parse4Hex_hexDigits (56320 + (c.toNat - 65536) % 1024) (by omega)]
                      dsimp only
                      rw [if_pos ⟨by omega, by omega⟩]
                      rw [ih f _ rest hf]
                      rw [show (65536 + (55296 + (c.toNat - 65536) / 1024 - 55296) * 1024 +
                          (56320 + (c.toNat - 65536) % 1024 - 56320)) = c.toNat by omega]
                      rw [Char.ofNat_toNat]
                      simp

theorem skipWs_cons_not_ws (c : Char) (cs : List Char) (h : isJsonWs c = false) :
    skipWs (c :: cs) = c :: cs := by
  rw [skipWs, if_neg (by simp [h])]

theorem skipWs_spaces (k : Nat) :
    ∀ t, skipWs (List.replicate k ' ' ++ t) = skipWs t := by
  induction k with
  | zero => intro t; rfl
  | succ k ih =>
    intro t
    rw [List.replicate_succ, List.cons_append, skipWs, if_pos (by decide)]
    exact ih t

theorem skipWs_indent (lvl : Nat) (t : List Char) :
    skipWs (indentChars lvl ++ t) = skipWs t := by
  rw [indentChars, List.cons_append, skipWs, if_pos (by decide)]
  exact skipWs_spaces (4 * lvl) t

theorem isJsonWs_eq_false (c : Char) (h1 : ¬ c = ' ') (h2 : ¬ c = '\t')
    (h3 : ¬ c = '\n') (h4 : ¬ c = '\r') : isJsonWs c = false := by
  simp [isJsonWs, h1, h2, h3, h4]

theorem digitChar_ne (d : Nat) (h : d < 10) (c : Char)
    (hc : c.toNat < 48 ∨ 57 < c.toNat) : ¬ digitChar d = c :=
  char_ne_of_toNat_ne (by rw [toNat_digitChar d h]; omega)

theorem dumpJson_head (lvl : Nat) (j : Json) :
    ∃ c cs, dumpJson lvl j = c :: cs ∧ isJsonWs c = false
      ∧ ¬ c = ']' ∧ ¬ c = '\x7d' := by
  cases j with
  | null => refine ⟨'n', _, rfl, by decide⟩
  | bool b =>
    cases b with
    | true => refine ⟨'t', _, rfl, by decide⟩
    | false => refine ⟨'f', _, rfl, by decide⟩
  | num n =>
    by_cases hneg : n < 0
    · refine ⟨'-', natToChars n.natAbs, ?_, by decide, by decide, by decide⟩
      rw [show dumpJson lvl (.num n) = intToChars n from rfl, intToChars, if_pos hneg]
    · obtain ⟨d, ds, hds, hd10, _⟩ := natToChars_head n.toNat
      refine ⟨digitChar d, ds, ?_, ?_, ?_, ?_⟩
      · rw [show dumpJson lvl (.num n) = intToChars n from rfl, intToChars, if_neg hneg,
          hds]
      · exact isJsonWs_eq_false _ (digitChar_ne d hd10 ' ' (by decide))
          (digitChar_ne d hd10 '\t' (by decide)) (digitChar_ne d hd10 '\n' (by decide))
          (digitChar_ne d hd10 '\r' (by decide))
      · exact digitChar_ne d hd10 ']' (by decide)
      · exact digitChar_ne d hd10 '\x7d' (by decide)
  | str s => refine ⟨'"', _, rfl, by decide⟩
  | arr items =>
    cases items with
    | nil => refine ⟨'[', _, rfl, by decide⟩
    | cons x xs => refine ⟨'[', _, rfl, by decide⟩
  | obj entries =>
    cases entries with
    | nil => refine ⟨'\x7b', _, rfl, by decide⟩
    | cons e es => refine ⟨'\x7b', _, rfl, by decide⟩

theorem escapeChar_length_pos (c : Char) : 1 ≤ (escapeChar c).length := by
  unfold escapeChar
  split_ifs <;> simp [uEscape]

theorem escapeChars_length_ge (s : List Char) :
    s.length ≤ (escapeChars s).length := by
  induction s with
  | nil => simp [escapeChars]
  | cons c s ih =>
    rw [escapeChars, List.length_append, List.length_cons]
    have := escapeChar_length_pos c
    omega

theorem dumpJson_length_pos (lvl : Nat) (j : Json) : 1 ≤ (dumpJson lvl j).length := by
  obtain ⟨c, cs, hc, -, -, -⟩ := dumpJson_head lvl j
  rw [hc]
  simp

/-- The round-trip property of a single value: the parser reads back
exactly what the printer wrote, leaving the remainder untouched. -/
def JsonRT (x : Json) : Prop :=
  ∀ lvl fuel rest, (dumpJson lvl x ++ rest).length < fuel → headNotDigit rest →
    parseValue fuel (dumpJson lvl x ++ rest) = some (x, rest)

theorem parseValue_null (f : Nat) (tail : List Char) :
    parseValue (f + 1) ('n' :: 'u' :: 'l' :: 'l' :: tail) = some (.null, tail) := by
  rw [parseValue.eq_def]
  dsimp only
  rw [if_neg (by decide), if_neg (by decide), if_neg (by decide), if_pos rfl]
  simp [dropLit]

theorem parseValue_true (f : Nat) (tail : List Char) :
    parseValue (f + 1) ('t' :: 'r' :: 'u' :: 'e' :: tail) = some (.bool true, tail) := by
  rw [parseValue.eq_def]
  dsimp only
  rw [if_neg (by decide), if_neg (by decide), if_neg (by decide), if_neg (by decide),
    if_pos rfl]
  simp [dropLit]

theorem parseValue_false (f : Nat) (tail : List Char) :
    parseValue (f + 1) ('f' :: 'a' :: 'l' :: 's' :: 'e' :: tail)
      = some (.bool false, tail) := by
  rw [parseValue.eq_def]
  dsimp only
  rw [if_neg (by decide), if_neg (by decide), if_neg (by decide), if_neg (by decide),
    if_neg (by decide), if_pos rfl]
  simp [dropLit]

theorem parseValue_str (f : Nat) (tail : List Char) :
    parseValue (f + 1) ('"' :: tail)
      = match parseStringBody f [] tail with
        | some (s, rest) => some (.str s, rest)
        | none => none := by
  rw [parseValue.eq_def]
  dsimp only
  rw [if_pos rfl]

theorem parseValue_arr (f : Nat) (tail : List Char) :
    parseValue (f + 1) ('[' :: tail)
      = match skipWs tail with
        | [] => none
        | d :: cs2 =>
            if d = ']' then some (.arr [], cs2)
            else
              match parseValue f (d :: cs2) with
              | some (v, rest) => parseArrRest f [v] rest
              | none => none := by
  rw [parseValue.eq_def]
  dsimp only
  rw [if_neg (by decide), if_pos rfl]

theorem parseValue_obj (f : Nat) (tail : List Char) :
    parseValue (f + 1) ('\x7b' :: tail)
      = match skipWs tail with
        | [] => none
        | d :: cs2 =>
            if d = '\x7d' then some (.obj [], cs2)
            else if d = '"' then
              match parseStringBody f [] cs2 with
              | some (k, rest) => parseMemberValue f [] k rest
              | none => none
            else none := by
  rw [parseValue.eq_def]
  dsimp only
  rw [if_neg (by decide), if_neg (by decide), if_pos rfl]

theorem parseValue_num (f : Nat) (c : Char) (cs : List Char)
    (h1 : ¬ c = '"') (h2 : ¬ c = '[') (h3 : ¬ c = '\x7b') (h4 : ¬ c = 'n')
    (h5 : ¬ c = 't') (h6 : ¬ c = 'f') :
    parseValue (f + 1) (c :: cs) = parseNumber (c :: cs) := by
  rw [parseValue.eq_def]
  dsimp only
  rw [if_neg h1, if_neg h2, if_neg h3, if_neg h4, if_neg h5, if_neg h6]

/-- Step of `parseMemberValue` on printed output: consume `: `, parse the
member's value, and hand over to the member loop. -/
theorem parseMemberValue_dump (f : Nat) (v : Json) (hv : JsonRT v)
    (acc : List (List Char × Json)) (k : List Char) (lvl : Nat) (X : List Char)
    (hfuel : (dumpJson lvl v ++ X).length < f) (hX : headNotDigit X) :
    parseMemberValue (f + 1) acc k (':' :: ' ' :: (dumpJson lvl v ++ X))
      = parseObjRest f ((k, v) :: acc) X := by
  rw [parseMemberValue.eq_def]
  dsimp only
  rw [skipWs_cons_not_ws ':' _ (by decide)]
  dsimp only
  rw [if_pos rfl]
  obtain ⟨c, cs, hc, hcws, -, -⟩ := dumpJson_head lvl v
  rw [show skipWs (' ' :: (dumpJson lvl v ++ X)) = skipWs (dumpJson lvl v ++ X) by
    rw [skipWs, if_pos (by decide)]]
  rw [hc, List.cons_append, skipWs_cons_not_ws c _ hcws, ← List.cons_append, ← hc]
  rw [hv lvl f X hfuel hX]

theorem headNotDigit_dumpArrRest (lvl lvl2 : Nat) (xs : List Json) (tail : List Char) :
    headNotDigit (dumpArrRest lvl xs ++ (indentChars lvl2 ++ (']' :: tail))) := by
  cases xs with
  | nil =>
    rw [dumpArrRest, List.nil_append, indentChars]
    show ('\n').isDigit = false
    decide
  | cons x xs =>
    rw [dumpArrRest]
    show (',').isDigit = false
    decide

theorem headNotDigit_dumpObjRest (lvl lvl2 : Nat) (es : List (List Char × Json))
    (tail : List Char) :
    headNotDigit (dumpObjRest lvl es ++ (indentChars lvl2 ++ ('\x7d' :: tail))) := by
  cases es with
  | nil =>
    rw [dumpObjRest, List.nil_append, indentChars]
    show ('\n').isDigit = false
    decide
  | cons e es =>
    rw [dumpObjRest]
    show (',').isDigit = false
    decide

theorem length_indentChars (lvl : Nat) : (indentChars lvl).length = 1 + 4 * lvl := by
  simp [indentChars]
  omega

theorem parseArrRest_dump (xs : List Json) :
    (∀ x ∈ xs, JsonRT x) →
    ∀ lvl lvl2 acc tail f,
      (dumpArrRest lvl xs ++ (indentChars lvl2 ++ (']' :: tail))).length < f →
      parseArrRest f acc (dumpArrRest lvl xs ++ (indentChars lvl2 ++ (']' :: tail)))
        = some (.arr (acc.reverse ++ xs), tail) := by
  induction xs with
  | nil =>
    intro _ lvl lvl2 acc tail f hf
    obtain ⟨f', rfl⟩ : ∃ f', f = f' + 1 := ⟨f - 1, by omega⟩
    rw [dumpArrRest, List.nil_append]
    rw [parseArrRest.eq_def]
    dsimp only
    rw [skipWs_indent lvl2 (']' :: tail), skipWs_cons_not_ws ']' _ (by decide)]
    dsimp only
    rw [if_pos rfl]
    simp
  | cons x xs ih =>
    intro helem lvl lvl2 acc tail f hf
    obtain ⟨f', rfl⟩ : ∃ f', f = f' + 1 := ⟨f - 1, by omega⟩
    rw [dumpArrRest]
    simp only [List.cons_append, List.append_assoc]
    rw [parseArrRest.eq_def]
    dsimp only
    rw [skipWs_cons_not_ws ',' _ (by decide)]
    dsimp only
    rw [if_neg (by decide), if_pos rfl]
    rw [skipWs_indent lvl]
    obtain ⟨c, cs, hc, hcws, -, -⟩ := dumpJson_head lvl x
    rw [hc, List.cons_append, skipWs_cons_not_ws c _ hcws, ← List.cons_append, ← hc]
    have hx := helem x (by simp)
    have hlen : (dumpJson lvl x ++ (dumpArrRest lvl xs ++ (indentChars lvl2 ++ (']' :: tail)))).length < f' := by
      rw [dumpArrRest] at hf
      simp only [List.length_append, List.length_cons, length_indentChars] at hf ⊢
      omega
    rw [hx lvl f' _ hlen (headNotDigit_dumpArrRest lvl lvl2 xs tail)]
    dsimp only
    rw [ih (fun y hy => helem y (by simp [hy])) lvl lvl2 (x :: acc) tail f' (by
      rw [dumpArrRest] at hf
      simp only [List.length_append, List.length_cons, length_indentChars] at hf ⊢
      have := dumpJson_length_pos lvl x
      omega)]
    simp

theorem parseObjRest_dump (es : List (List Char × Json)) :
    (∀ e ∈ es, JsonRT e.2) →
    ∀ lvl lvl2 acc tail f,
      (dumpObjRest lvl es ++ (indentChars lvl2 ++ ('\x7d' :: tail))).length < f →
      parseObjRest f acc (dumpObjRest lvl es ++ (indentChars lvl2 ++ ('\x7d' :: tail)))
        = some (.obj (acc.reverse ++ es), tail) := by
  induction es with
  | nil =>
    intro _ lvl lvl2 acc tail f hf
    obtain ⟨f', rfl⟩ : ∃ f', f = f' + 1 := ⟨f - 1, by omega⟩
    rw [dumpObjRest, List.nil_append]
    rw [parseObjRest.eq_def]
    dsimp only
    rw [skipWs_indent lvl2 ('\x7d' :: tail), skipWs_cons_not_ws '\x7d' _ (by decide)]
    dsimp only
    rw [if_pos rfl]
    simp
  | cons e es ih =>
    intro helem lvl lvl2 acc tail f hf
    obtain ⟨k, v⟩ := e
    obtain ⟨f', rfl⟩ : ∃ f', f = f' + 1 := ⟨f - 1, by omega⟩
    rw [dumpObjRest, dumpMember]
    simp only [List.cons_append, List.append_assoc, encodeString, List.singleton_append]
    rw [parseObjRest.eq_def]
    dsimp only
    rw [skipWs_cons_not_ws ',' _ (by decide)]
    dsimp only
    rw [if_neg (by decide), if_pos rfl]
    rw [skipWs_indent lvl, skipWs_cons_not_ws '"' _ (by decide)]
    dsimp only
    rw [if_pos rfl]
    have hklen : k.length < f' := by
      rw [dumpObjRest, dumpMember] at hf
      simp only [List.length_append, List.length_cons, length_indentChars,
        encodeString] at hf
      have := escapeChars_length_ge k
      omega
    rw [parseStringBody_escapeChars k f' [] _ hklen]
    simp only [List.reverse_nil, List.nil_append]
    obtain ⟨f2, rfl⟩ : ∃ f2, f' = f2 + 1 := ⟨f' - 1, by omega⟩
    have hvlen : (dumpJson lvl v ++ (dumpObjRest lvl es ++ (indentChars lvl2 ++ ('\x7d' :: tail)))).length < f2 := by
      rw [dumpObjRest, dumpMember] at hf
      simp only [List.length_append, List.length_cons, length_indentChars,
        encodeString] at hf ⊢
      have := escapeChars_length_ge k
      omega
    rw [parseMemberValue_dump f2 v
      (fun lvl fuel rest h1 h2 => helem (k, v) (by simp) lvl fuel rest h1 h2)
      acc k lvl _ hvlen (headNotDigit_dumpObjRest lvl lvl2 es tail)]
    rw [ih (fun y hy => helem y (by simp [hy])) lvl lvl2 ((k, v) :: acc) tail f2 (by
      rw [dumpObjRest, dumpMember] at hf
      simp only [List.length_append, List.length_cons, length_indentChars,
        encodeString] at hf ⊢
      have := escapeChars_length_ge k
      have := dumpJson_length_pos lvl v
      omega)]
    simp

/-- Round trip of the printer and parser for every JSON value, by strong
induction on the size of the value. -/
theorem parseValue_dump_all : ∀ (N : Nat) (j : Json), sizeOf j ≤ N → JsonRT j := by
  intro N
  induction N with
  | zero =>
    intro j hj
    exfalso
    cases j <;> simp at hj
  | succ N ih =>
    intro j hj lvl fuel rest hfuel hrest
    obtain ⟨f, rfl⟩ : ∃ f, fuel = f + 1 := ⟨fuel - 1, by omega⟩
    cases j with
    | null =>
      rw [dumpJson.eq_def] at hfuel ⊢
      dsimp only at hfuel ⊢
      simp only [List.cons_append, List.nil_append]
      exact parseValue_null f rest
    | bool b =>
      cases b with
      | true =>
        rw [dumpJson.eq_def] at hfuel ⊢
        dsimp only at hfuel ⊢
        simp only [List.cons_append, List.nil_append]
        exact parseValue_true f rest
      | false =>
        rw [dumpJson.eq_def] at hfuel ⊢
        dsimp only at hfuel ⊢
        simp only [List.cons_append, List.nil_append]
        exact parseValue_false f rest
    | num n =>
      rw [dumpJson.eq_def] at hfuel ⊢
      dsimp only at hfuel ⊢
      by_cases hneg : n < 0
      · rw [intToChars, if_pos hneg, List.cons_append]
        rw [parseValue_num f '-' _ (by decide) (by decide) (by decide) (by decide)
          (by decide) (by decide)]
        rw [show '-' :: (natToChars n.natAbs ++ rest) = intToChars n ++ rest by
          rw [intToChars, if_pos hneg, List.cons_append]]
        exact parseNumber_intToChars n rest hrest
      · obtain ⟨d, ds, hds, hd10, -⟩ := natToChars_head n.toNat
        rw [intToChars, if_neg hneg, hds, List.cons_append]
        rw [parseValue_num f (digitChar d) _ (digitChar_ne d hd10 '"' (by decide))
          (digitChar_ne d hd10 '[' (by decide)) (digitChar_ne d hd10 '\x7b' (by decide))
          (digitChar_ne d hd10 'n' (by decide)) (digitChar_ne d hd10 't' (by decide))
          (digitChar_ne d hd10 'f' (by decide))]
        rw [show digitChar d :: (ds ++ rest) = intToChars n ++ rest by
          rw [intToChars, if_neg hneg, hds, List.cons_append]]
        exact parseNumber_intToChars n rest hrest
    | str s =>
      rw [dumpJson.eq_def] at hfuel ⊢
      dsimp only at hfuel ⊢
      rw [encodeString] at hfuel ⊢
      simp only [List.cons_append, List.append_assoc, List.singleton_append, List.nil_append] at hfuel ⊢
      rw [parseValue_str f]
      have hslen : s.length < f := by
        have h1 := escapeChars_length_ge s
        simp only [List.length_append, List.length_cons] at hfuel
        omega
      rw [parseStringBody_escapeChars s f [] rest hslen]
      simp
    | arr items =>
      cases items with
      | nil =>
        rw [dumpJson.eq_def] at hfuel ⊢
        dsimp only at hfuel ⊢
        simp only [List.cons_append, List.singleton_append, List.nil_append]
        rw [parseValue_arr f]
        rw [skipWs_cons_not_ws ']' rest (by decide)]
        dsimp only
        rw [if_pos rfl]
      | cons x xs =>
        rw [dumpJson.eq_def] at hfuel ⊢
        dsimp only at hfuel ⊢
        simp only [List.cons_append, List.append_assoc, List.singleton_append, List.nil_append]
          at hfuel ⊢
        rw [parseValue_arr f]
        rw [skipWs_indent (lvl + 1)]
        obtain ⟨c, cs, hc, hcws, hcbr, -⟩ := dumpJson_head (lvl + 1) x
        rw [hc, List.cons_append, skipWs_cons_not_ws c _ hcws]
        dsimp only
        rw [if_neg hcbr]
        rw [← List.cons_append, ← hc]
        have hx : JsonRT x := ih x (by
          simp only [Json.arr.sizeOf_spec, List.cons.sizeOf_spec] at hj
          omega)
        have hlenfacts : (dumpJson (lvl + 1) x
            ++ (dumpArrRest (lvl + 1) xs ++ (indentChars lvl ++ (']' :: rest)))).length
              < f := by
          simp only [List.length_append, List.length_cons, length_indentChars]
            at hfuel ⊢
          omega
        rw [hx (lvl + 1) f _ hlenfacts (headNotDigit_dumpArrRest (lvl + 1) lvl xs rest)]
        dsimp only
        rw [parseArrRest_dump xs (fun y hy => ih y (by
            have hy2 := List.sizeOf_lt_of_mem hy
            simp only [Json.arr.sizeOf_spec, List.cons.sizeOf_spec] at hj
            omega))
          (lvl + 1) lvl [x] rest f (by
            simp only [List.length_append, List.length_cons, length_indentChars]
              at hfuel ⊢
            have := dumpJson_length_pos (lvl + 1) x
            omega)]
        simp
    | obj entries =>
      cases entries with
      | nil =>
        rw [dumpJson.eq_def] at hfuel ⊢
        dsimp only at hfuel ⊢
        simp only [List.cons_append, List.singleton_append, List.nil_append]
        rw [parseValue_obj f]
        rw [skipWs_cons_not_ws '\x7d' rest (by decide)]
        dsimp only
        rw [if_pos rfl]
      | cons e es =>
        obtain ⟨k, v⟩ := e
        rw [dumpJson.eq_def] at hfuel ⊢
        dsimp only at hfuel ⊢
        rw [dumpMember.eq_def] at hfuel ⊢
        dsimp only at hfuel ⊢
        rw [encodeString] at hfuel ⊢
        simp only [List.cons_append, List.append_assoc, List.singleton_append, List.nil_append]
          at hfuel ⊢
        rw [parseValue_obj f]
        rw [skipWs_indent (lvl + 1), skipWs_cons_not_ws '"' _ (by decide)]
        dsimp only
        rw [if_neg (by decide), if_pos rfl]
        have hklen : k.length < f := by
          have h1 := escapeChars_length_ge k
          simp only [List.length_append, List.length_cons, length_indentChars]
            at hfuel
          omega
        rw [parseStringBody_escapeChars k f [] _ hklen]
        simp only [List.reverse_nil, List.nil_append]
        obtain ⟨f2, rfl⟩ : ∃ f2, f = f2 + 1 := ⟨f - 1, by
          simp only [List.length_append, List.length_cons, length_indentChars]
            at hfuel
          omega⟩
        have hv : JsonRT v := ih v (by
          simp only [Json.obj.sizeOf_spec, List.cons.sizeOf_spec,
            Prod.mk.sizeOf_spec] at hj
          omega)
        have hvlen : (dumpJson (lvl + 1) v
            ++ (dumpObjRest (lvl + 1) es ++ (indentChars lvl ++ ('\x7d' :: rest)))).length
              < f2 := by
          have h1 := escapeChars_length_ge k
          simp only [List.length_append, List.length_cons, length_indentChars]
            at hfuel ⊢
          omega
        rw [parseMemberValue_dump f2 v hv [] k (lvl + 1) _ hvlen
          (headNotDigit_dumpObjRest (lvl + 1) lvl es rest)]
        rw [parseObjRest_dump es (fun y hy => ih y.2 (by
            have hy2 := List.sizeOf_lt_of_mem hy
            have hy3 : sizeOf y.2 ≤ sizeOf y := by
              obtain ⟨a, b⟩ := y
              simp only [Prod.mk.sizeOf_spec]
              omega
            simp only [Json.obj.sizeOf_spec, List.cons.sizeOf_spec,
              Prod.mk.sizeOf_spec] at hj
            omega))
          (lvl + 1) lvl [(k, v)] rest f2 (by
            have h1 := escapeChars_length_ge k
            simp only [List.length_append, List.length_cons, length_indentChars]
              at hfuel ⊢
            have := dumpJson_length_pos (lvl + 1) v
            omega)]
        simp

theorem json_loads_dump (j : Json) :
    json_loads (String.mk (dumpJson 0 j)) = .ok j := by
  have hRT := parseValue_dump_all (sizeOf j) j le_rfl
  have h1 : parseValue ((String.mk (dumpJson 0 j)).length + 1) (dumpJson 0 j ++ [])
      = some (j, []) := by
    apply hRT
    · rw [List.append_nil]
      show (dumpJson 0 j).length < (dumpJson 0 j).length + 1
      omega
    · trivial
  rw [List.append_nil] at h1
  rw [json_loads]
  obtain ⟨c, cs, hc, hcws, -, -⟩ := dumpJson_head 0 j
  rw [show (String.mk (dumpJson 0 j)).data = dumpJson 0 j from rfl]
  rw [hc, skipWs_cons_not_ws c _ hcws, ← hc, h1]
  rfl

/-- Unpacking of one element of an iterable JSON value by `for k, v in ...`
inside `Box.__init__`, as in `unpackPair` but over parsed JSON values. -/
def unpackPairJson : Json → Except PyError (List Char × Json)
  | .arr [.str k, v] => .ok (k, v)
  | .arr [_, _] => .error (.typeError "attribute name must be string")
  | .arr items =>
      if items.length < 2 then
        .error (.valueError "not enough values to unpack")
      else
        .error (.valueError "too many values to unpack")
  | .str s =>
      match s with
      | [c1, c2] => .ok ([c1], .str [c2])
      | _ =>
          if s.length < 2 then
            .error (.valueError "not enough values to unpack")
          else
            .error (.valueError "too many values to unpack")
  | .obj [e1, e2] => .ok (e1.1, .str e2.1)
  | .obj entries =>
      if entries.length < 2 then
        .error (.valueError "not enough values to unpack")
      else
        .error (.valueError "too many values to unpack")
  | .null => .error (.typeError "cannot unpack non-iterable NoneType object")
  | .bool _ => .error (.typeError "cannot unpack non-iterable bool object")
  | .num _ => .error (.typeError "cannot unpack non-iterable int object")

def unpackAllJson : List Json → Except PyError (List (List Char × Json))
  | [] => .ok []
  | x :: xs =>
    match unpackPairJson x with
    | .error e => .error e
    | .ok p =>
      match unpackAllJson xs with
      | .error e => .error e
      | .ok ps => .ok (p :: ps)

/-- `box.ConfigBox` applied to the value `json.load` returned, modelled from
`Box.__init__` as in `boxInit`: a mapping is kept, an iterable is consumed
as key/value pairs, everything else raises.  `load_json` has no handler, so
these errors propagate to the caller. -/
def boxInitJson : Json → Except PyError Json
  | .str _ => .error (.boxValueError "Cannot extrapolate Box from string")
  | .obj entries => .ok (.obj entries)
  | .arr items =>
      match unpackAllJson items with
      | .error e => .error e
      | .ok ps => .ok (.obj ps)
  | .null => .error (.boxValueError "First argument must be mapping or iterable")
  | .bool _ => .error (.boxValueError "First argument must be mapping or iterable")
  | .num _ => .error (.boxValueError "First argument must be mapping or iterable")

/-- Shallow embedding of `save_json` from `common.py`: open the file in
`"w"` mode (truncating) and write `json.dump(data, f, indent=4)`; the
argument is a `dict`, enforced by `ensure_annotations`. -/
def save_json (path : String) (data : List (List Char × Json))
    (fs : List (String × String)) : List (String × String) :=
  fsWrite fs path (String.mk (dumpJson 0 (.obj data)))

/-- Shallow embedding of `load_json` from `common.py`: read the file (a
missing path raises `FileNotFoundError`), run `json.load`, and wrap the
result in `ConfigBox`; there is no exception handler, so all errors
propagate. -/
def load_json (path : String) (fs : List (String × String)) :
    Except PyError Json :=
  match fsRead fs path with
  | none => .error .fileNotFoundError
  | some text =>
    match json_loads text with
    | .error e => .error e
    | .ok content => boxInitJson content

/-- C2: saving any mapping with `save_json` and loading it back with
`load_json` returns the mapping unchanged — every key and every value
(including nested arrays, objects, strings with escapes, and signed
integers) survives the round trip through the indented JSON text. -/
theorem load_json_save_json_roundtrip (fs : List (String × String)) (path : String)
    (entries : List (List Char × Json)) :
    load_json path (save_json path entries fs) = .ok (.obj entries) := by
  rw [load_json, save_json, fsRead_fsWrite_same]
  dsimp only
  rw [json_loads_dump (.obj entries)]
  rfl
